import Mathlib

/-!
Shallow embedding of `plot.py` (mutation pie-chart grid plotter) and proofs
about it.  The program reads a CSV table of mutation-percentage measurements
(`getData`), checks that every mutation carries the same set of approach
names (`checkApproachNames`), sorts approaches and mutation names by two
domain-specific keys (`rowKey`, `columnKey`) and renders one pie-chart panel
per (approach, mutation) pair (`plotPie`, `makePlot`).

Modelling conventions:
* Python strings are Lean `String`s; the splitting primitives of `str` are
  re-implemented over `List Char` so that they compute by kernel reduction.
* Python floats are modelled as `ℚ`; `float(s)` is modelled for plain
  decimal literals by `pyFloat`.
* Python dicts (which preserve insertion order) are association lists.
* A run of the program either produces a value or stops with an uncaught
  exception / explicit exit, modelled by `Except PyError`.
-/

deriving instance DecidableEq for Except

namespace MutPlot

/-- Outcome of a failing Python run: the uncaught exception kind (with the
message the CPython runtime attaches where the code inspects none), or an
explicit `sys.exit(code)` after printing `stderr`. -/
inductive PyError where
  | stopIteration
  | assertionError
  | keyError
  | valueError (msg : String)
  | attributeError (msg : String)
  | unboundLocalError
  | systemExit (code : Nat) (stderr : String)
deriving DecidableEq

/-- A single quote character, used to build Python `repr` strings. -/
def squote : String := String.mk [Char.ofNat 39]

/-- Python `repr` of a simple string (no embedded quotes or escapes). -/
def pyRepr (s : String) : String := squote ++ s ++ squote

/-- Message of the `ValueError` CPython raises when tuple unpacking gets the
wrong number of values. -/
def unpackMsg (expected got : Nat) : String :=
  if got < expected then
    "not enough values to unpack (expected " ++ toString expected ++ ", got "
      ++ toString got ++ ")"
  else
    "too many values to unpack (expected " ++ toString expected ++ ")"

/-- Message of the `AttributeError` CPython raises for `None.group()`, i.e.
when `re.search` found no match. -/
def noneGroupMsg : String :=
  pyRepr "NoneType" ++ " object has no attribute " ++ pyRepr "group"

/-- Split a character list at every occurrence of the separator, keeping
empty pieces: the semantics of Python `str.split(sep)` for a one-character
separator. -/
def splitOnChar (sep : Char) : List Char → List (List Char)
  | [] => [[]]
  | c :: rest =>
    match splitOnChar sep rest with
    | [] => [[]]
    | h :: t => if c = sep then [] :: h :: t else (c :: h) :: t

/-- Python `name.split(sep)` for a one-character separator. -/
def pySplitChar (s : String) (sep : Char) : List String :=
  (splitOnChar sep s.data).map String.mk

/-- Split a character list at every whitespace character. -/
def splitOnWhite : List Char → List (List Char)
  | [] => [[]]
  | c :: rest =>
    match splitOnWhite rest with
    | [] => [[]]
    | h :: t => if c.isWhitespace then [] :: h :: t else (c :: h) :: t

/-- Python `name.split()` (no argument): split on whitespace runs, dropping
empty pieces. -/
def pyWords (s : String) : List String :=
  ((splitOnWhite s.data).filter (· ≠ [])).map String.mk

/-- Value of a digit-character list read in base 10, as `int` does. -/
def digitsToNat (cs : List Char) : Nat :=
  cs.foldl (fun n c => 10 * n + (c.toNat - 48)) 0

/-- First maximal run of decimal digits in a character list, if any: the
match of the regular expression `\d+`. -/
def firstDigitRun : List Char → Option (List Char)
  | [] => none
  | c :: rest =>
    if c.isDigit then some (c :: rest.takeWhile Char.isDigit)
    else firstDigitRun rest

/-- Model of `int(DIGITS.search(s).group())` where `DIGITS = re.compile("\d+")`:
the first run of decimal digits in `s` as a number, or `none` when `search`
returns `None`. -/
def digitsSearch (s : String) : Option Nat :=
  (firstDigitRun s.data).map digitsToNat

/-- Model of Python `float(s)` on plain decimal literals: optional sign,
integer digits, optional fractional part.  Returns `none` when `float`
would raise `ValueError`. -/
def pyFloat (s : String) : Option ℚ :=
  let (neg, cs) : Bool × List Char :=
    match s.data with
    | '-' :: r => (true, r)
    | '+' :: r => (false, r)
    | r => (false, r)
  let ip := cs.takeWhile Char.isDigit
  let rest := cs.dropWhile Char.isDigit
  let val? : Option ℚ :=
    match rest with
    | [] => if ip.isEmpty then none else some ((digitsToNat ip : ℚ))
    | '.' :: fp =>
      if fp.all Char.isDigit && !(ip.isEmpty && fp.isEmpty) then
        some ((digitsToNat ip : ℚ) + (digitsToNat fp : ℚ) / (10 : ℚ) ^ fp.length)
      else none
    | _ => none
  val?.map (fun v => if neg then -v else v)

/-- Inner mapping of the measurement table: approach name to optional
percentage, in insertion order. -/
abbrev Inner := List (String × Option ℚ)

/-- The measurement table: mutation name to inner mapping, in insertion
order (Python dicts preserve insertion order). -/
abbrev Table := List (String × Inner)

/-- Replace the inner mapping stored under `name`: the effect of
`result[name][approach] = v` on the outer dict when `name` is present. -/
def setInner (t : Table) (name : String) (inner : Inner) : Table :=
  t.map (fun p => if p.1 = name then (p.1, inner) else p)

/-- The message printed to stderr before `sys.exit(1)` when a (mutation,
approach) pair occurs twice: `f"Approach name {approach!r} found twice for
{name!r}."`. -/
def dupMessage (approach name : String) : String :=
  "Approach name " ++ pyRepr approach ++ " found twice for " ++ pyRepr name
    ++ "."

/-- The required CSV header row. -/
def csvHeader : List String := ["Mutation", "sample", "%Mutation", "%Rest"]

/-- The dict update performed for one data row: `result[name] = {}` when
`name` is new (appending the key, as dict insertion does), then
`result[name][approach] = v` (appending the approach key to the inner
dict). -/
def stepTable (result : Table) (name approach : String) (v : Option ℚ) :
    Table :=
  let inner := (result.lookup name).getD []
  let inner2 := inner ++ [(approach, v)]
  if (result.lookup name).isSome then setInner result name inner2
  else result ++ [(name, inner2)]

/-- The row loop of `getData`: unpack each row as
`name, approach, percent, _`, reject duplicate (mutation, approach) pairs by
printing a message and exiting with status 1, store `None` for an empty
percent field and `float(percent)` otherwise. -/
def loadRows (result : Table) : List (List String) → Except PyError Table
  | [] => .ok result
  | row :: rest =>
    match row with
    | [name, approach, percent, _unused] =>
      let inner := (result.lookup name).getD []
      if (inner.lookup approach).isSome then
        .error (.systemExit 1 (dupMessage approach name))
      else
        match (if percent = "" then some none else (pyFloat percent).map some) with
        | none =>
          .error (.valueError ("could not convert string to float: "
            ++ pyRepr percent))
        | some v => loadRows (stepTable result name approach v) rest
    | bad => .error (.valueError (unpackMsg 4 bad.length))

/-- `getData`: read the parsed CSV lines (header first), check the header
literally, then load the data rows. -/
def getData (lines : List (List String)) : Except PyError Table :=
  match lines with
  | [] => .error .stopIteration
  | header :: rest =>
    if header = csvHeader then loadRows [] rest else .error .assertionError

/-- The key set of an inner mapping as a Python `set`, modelled as the
deduplicated key list. -/
def innerKeys (inner : Inner) : List String :=
  (inner.map Prod.fst).dedup

/-- Equality of two key lists viewed as sets, as Python `set` equality. -/
def sameSet (a b : List String) : Bool :=
  a.all (b.contains ·) && b.all (a.contains ·)

/-- The loop of `checkApproachNames`: remember the approach-name set of the
first mutation, assert every later mutation has an equal set. -/
def checkLoop (approaches : Option (List String)) :
    Table → Except PyError (Option (List String))
  | [] => .ok approaches
  | entry :: rest =>
    match approaches with
    | none => checkLoop (some (innerKeys entry.2)) rest
    | some a =>
      if sameSet (innerKeys entry.2) a then checkLoop (some a) rest
      else .error .assertionError

/-- `checkApproachNames`: check every mutation carries the same set of
approach names and return that set; on an empty table the local variable
`approaches` was never assigned and the final `return` raises
`UnboundLocalError`. -/
def checkApproachNames (data : Table) : Except PyError (List String) :=
  match checkLoop none data with
  | .error e => .error e
  | .ok none => .error .unboundLocalError
  | .ok (some a) => .ok a

/-- `rowKey`: split the approach name into tissue and method, look the
method up in the fixed list `["native", "cap"]` (a missing method raises
`ValueError` from `list.index`), and key by
`(int(tissue != "Serum"), tissue, approachNumber)`. -/
def rowKey (name : String) : Except PyError (Nat × String × Nat) :=
  match pyWords name with
  | [tissue, approach] =>
    match List.indexOf? approach ["native", "cap"] with
    | none => .error (.valueError (pyRepr approach ++ " is not in list"))
    | some approachNumber =>
      .ok ((if tissue ≠ "Serum" then 1 else 0), tissue, approachNumber)
  | parts => .error (.valueError (unpackMsg 2 parts.length))

/-- `columnKey`: split the mutation name at `":"` into ORF and mutation
tokens (a part count other than two raises `ValueError` from unpacking) and
key by the first digit runs of the two tokens (a missing run makes
`DIGITS.search` return `None`, so `.group()` raises `AttributeError`). -/
def columnKey (name : String) : Except PyError (Nat × Nat) :=
  match pySplitChar name ':' with
  | [orf, mutation] =>
    match digitsSearch orf with
    | none => .error (.attributeError noneGroupMsg)
    | some orfNumber =>
      match digitsSearch mutation with
      | none => .error (.attributeError noneGroupMsg)
      | some position => .ok (orfNumber, position)
  | parts => .error (.valueError (unpackMsg 2 parts.length))

/-- Python `<` on strings: lexicographic comparison of code points. -/
def charListLt : List Char → List Char → Bool
  | [], [] => false
  | [], _ :: _ => true
  | _ :: _, [] => false
  | c :: cs, d :: ds => decide (c < d) || (decide (c = d) && charListLt cs ds)

/-- Python `<` on strings. -/
def pyStrLt (a b : String) : Bool := charListLt a.data b.data

/-- Python `<=` on the row-key triples, i.e. lexicographic tuple
comparison as used by `sorted`. -/
def rowKeyLE (x y : Nat × String × Nat) : Bool :=
  decide (x.1 < y.1) ||
    (decide (x.1 = y.1) &&
      (pyStrLt x.2.1 y.2.1 ||
        (decide (x.2.1 = y.2.1) && decide (x.2.2 ≤ y.2.2))))

/-- Python `<=` on the column-key pairs. -/
def colKeyLE (x y : Nat × Nat) : Bool :=
  decide (x.1 < y.1) || (decide (x.1 = y.1) && decide (x.2 ≤ y.2))

/-- Insert an element into a sorted list, before the first element it
compares `le` to: the insertion step of a stable sort. -/
def insertBy (le : α → α → Bool) (a : α) : List α → List α
  | [] => [a]
  | b :: l => if le a b then a :: b :: l else b :: insertBy le a l

/-- Stable insertion sort.  Python `sorted` is a stable sort, and every
stable sort by the same total preorder computes the same list. -/
def sortBy (le : α → α → Bool) : List α → List α
  | [] => []
  | a :: l => insertBy le a (sortBy le l)

/-- Apply a fallible function to every element, left to right, propagating
the first error: the effect of evaluating `key` on each element. -/
def mapExcept (f : α → Except PyError β) : List α → Except PyError (List β)
  | [] => .ok []
  | x :: xs =>
    match f x with
    | .error e => .error e
    | .ok y =>
      match mapExcept f xs with
      | .error e => .error e
      | .ok ys => .ok (y :: ys)

/-- Python `sorted(xs, key=key)`: compute every key first (in list order,
propagating the first exception), then stable-sort by the keys. -/
def pySorted (key : α → Except PyError κ) (le : κ → κ → Bool)
    (xs : List α) : Except PyError (List α) :=
  match mapExcept (fun x => (key x).map (fun k => (k, x))) xs with
  | .error e => .error e
  | .ok keyed => .ok ((sortBy (fun p q => le p.1 q.1) keyed).map Prod.snd)

/-- What is drawn inside one grid cell: either the axis is turned off (no
chart) or a pie chart with the given slice sizes; `autopct` is the
matplotlib option for numeric labels on slices, left at its `None` default
by the code. -/
inductive PanelBody where
  | axisOff
  | pie (sizes : List ℚ) (autopct : Option String)
deriving DecidableEq

/-- One rendered grid cell: its coordinates, the (approach, mutation) pair
it was drawn for, the title / y-label set on first-row / first-column
cells, and its body. -/
structure Panel where
  row : Nat
  col : Nat
  approach : String
  name : String
  title : Option String
  ylabel : Option String
  body : PanelBody
deriving DecidableEq

/-- `plotPie`: title first-row panels with the mutation name, label
first-column panels with the approach name, turn the axis off when the
percentage is `None`, and otherwise draw a two-slice pie
`[percent, 100.0 - percent]` with no slice labels. -/
def plotPie (percent : Option ℚ) (row col : Nat) (approach name : String) :
    Panel :=
  { row := row
    col := col
    approach := approach
    name := name
    title := if row = 0 then some name else none
    ylabel := if col = 0 then some approach else none
    body :=
      match percent with
      | none => .axisOff
      | some p => .pie [p, 100 - p] none }

/-- `data[name][approach]`: a missing key raises `KeyError`. -/
def lookup2 (data : Table) (name approach : String) :
    Except PyError (Option ℚ) :=
  match data.lookup name with
  | none => .error .keyError
  | some inner =>
    match inner.lookup approach with
    | none => .error .keyError
    | some v => .ok v

/-- The coordinates yielded by `dimensionalIterator((rows, cols))` of the
external `dark.dimension` library, per its documented contract: all (row,
col) pairs of the grid in row-major order (row slowest, column fastest). -/
def gridCoords (rows cols : Nat) : List (Nat × Nat) :=
  (List.range rows).flatMap (fun r => (List.range cols).map (fun c => (r, c)))

/-- The nested drawing loop of `makePlot`: for each (approach, name) pair in
order, pull the next coordinate (an exhausted iterator raises
`StopIteration`), look the value up and draw one panel. -/
def drawPanels : List (String × String) → List (Nat × Nat) → Table →
    Except PyError (List Panel)
  | [], _, _ => .ok []
  | _ :: _, [], _ => .error .stopIteration
  | (approach, name) :: ps, (row, col) :: cs, data =>
    match lookup2 data name approach with
    | .error e => .error e
    | .ok v =>
      match drawPanels ps cs data with
      | .error e => .error e
      | .ok rest => .ok (plotPie v row col approach name :: rest)

/-- `makePlot`: validate the approach sets, lay out a `len(approaches) ×
len(data)` grid, sort rows by `rowKey` and columns by `columnKey`, and draw
the panels in the nested loop order, consuming grid coordinates row-major.
The returned list is the sequence of drawn panels of the saved figure. -/
def makePlot (data : Table) : Except PyError (List Panel) :=
  match checkApproachNames data with
  | .error e => .error e
  | .ok approaches =>
    let rows := approaches.length
    let cols := data.length
    let coords := gridCoords rows cols
    match pySorted rowKey rowKeyLE approaches with
    | .error e => .error e
    | .ok sortedApproaches =>
      match pySorted columnKey colKeyLE (data.map Prod.fst) with
      | .error e => .error e
      | .ok sortedNames =>
        drawPanels
          (sortedApproaches.flatMap (fun a => sortedNames.map (fun n => (a, n))))
          coords data

/-- `main` after argument parsing: load the CSV, then make and save the
plot.  The output file exists exactly when the whole pipeline returns
`.ok`; any error aborts before the figure is written. -/
def runPipeline (lines : List (List String)) : Except PyError (List Panel) :=
  match getData lines with
  | .error e => .error e
  | .ok data => makePlot data

/-- The (mutation, approach) pair of a data row. -/
def pairOf (row : List String) : String × String :=
  (row.getD 0 "", row.getD 1 "")

/-- A data row the loader can process without a type error: four fields,
with an empty or parsable percent field. -/
def goodRow (row : List String) : Bool :=
  match row with
  | [_, _, percent, _] => percent = "" || (pyFloat percent).isSome
  | _ => false

/-- All (mutation, approach) pairs stored in a table, in iteration order. -/
def tablePairs (t : Table) : List (String × String) :=
  t.flatMap (fun p => p.2.map (fun q => (p.1, q.1)))

/-- Check that a string occurs as a (contiguous) substring of another,
starting at the head. -/
def startsWithCh : List Char → List Char → Bool
  | [], _ => true
  | _ :: _, [] => false
  | c :: cs, d :: ds => decide (c = d) && startsWithCh cs ds

/-- Check that `needle` occurs as a contiguous substring of `hay`. -/
def containsSub (needle : List Char) : List Char → Bool
  | [] => startsWithCh needle []
  | c :: t => startsWithCh needle (c :: t) || containsSub needle t

/-- String containment: does `hay` mention `needle` anywhere? -/
def strContains (hay needle : String) : Bool :=
  containsSub needle.data hay.data

/-- The message attached to an error, for inspecting what a failure
reports ( `sys.exit` prints its message to stderr). -/
def pyErrMsg : PyError → String
  | .valueError m => m
  | .attributeError m => m
  | .systemExit _ m => m
  | _ => ""

/-- Tissue token of a two-token approach name, as the spec reads it. -/
def specTissue (name : String) : String := (pyWords name).getD 0 ""

/-- Method token of a two-token approach name, as the spec reads it. -/
def specMethod (name : String) : String := (pyWords name).getD 1 ""

/-- The row order as the spec states it, written from the spec's words for
comparison with `rowKey`: primary key is tissue with "Serum" (encoded 0)
before any other tissue (encoded 1); secondary key is the tissue string
itself; tertiary key is the method, "native" before "cap". -/
def specRowLE (a b : String) : Prop :=
  (if specTissue a = "Serum" then (0 : Nat) else 1) <
      (if specTissue b = "Serum" then (0 : Nat) else 1) ∨
    ((if specTissue a = "Serum" then (0 : Nat) else 1) =
        (if specTissue b = "Serum" then (0 : Nat) else 1) ∧
      (pyStrLt (specTissue a) (specTissue b) = true ∨
        (specTissue a = specTissue b ∧
          (if specMethod a = "native" then (0 : Nat) else 1) ≤
            (if specMethod b = "native" then (0 : Nat) else 1))))

/-- A two-token approach name whose method token is recognised, the scope
of the row-ordering claim. -/
def wfRowName (n : String) : Prop :=
  ∃ t m, pyWords n = [t, m] ∧ (m = "native" ∨ m = "cap")

/-- ORF token of a mutation name, as the spec reads it. -/
def specOrf (n : String) : String := (pySplitChar n ':').getD 0 ""

/-- Mutation token of a mutation name, as the spec reads it. -/
def specMut (n : String) : String := (pySplitChar n ':').getD 1 ""

/-- The column order as the spec states it: ascending by the pair (first
digit run of the ORF token, first digit run of the mutation token). -/
def specColLE (a b : String) : Prop :=
  (digitsSearch (specOrf a)).getD 0 < (digitsSearch (specOrf b)).getD 0 ∨
    ((digitsSearch (specOrf a)).getD 0 = (digitsSearch (specOrf b)).getD 0 ∧
      (digitsSearch (specMut a)).getD 0 ≤ (digitsSearch (specMut b)).getD 0)

/-- A mutation name of the shape the column-ordering claim quantifies over:
exactly one colon, and a digit run in both tokens. -/
def wfColName (n : String) : Prop :=
  ∃ orf mtn, pySplitChar n ':' = [orf, mtn] ∧
    (digitsSearch orf).isSome ∧ (digitsSearch mtn).isSome

/-! ### Sorting infrastructure lemmas -/

theorem insertBy_perm (le : α → α → Bool) (a : α) (l : List α) :
    (insertBy le a l).Perm (a :: l) := by
  induction l with
  | nil => exact List.Perm.refl _
  | cons b t ih =>
    unfold insertBy
    by_cases h : le a b
    · simp [h]
    · simp only [h, if_false]
      exact (ih.cons b).trans (List.Perm.swap a b t)

theorem sortBy_perm (le : α → α → Bool) (l : List α) :
    (sortBy le l).Perm l := by
  induction l with
  | nil => exact List.Perm.refl _
  | cons a t ih =>
    exact (insertBy_perm le a (sortBy le t)).trans (ih.cons a)

theorem mem_insertBy (le : α → α → Bool) (a x : α) (l : List α) :
    x ∈ insertBy le a l ↔ x = a ∨ x ∈ l := by
  rw [(insertBy_perm le a l).mem_iff]
  simp

theorem pairwise_insertBy {le : α → α → Bool}
    (htrans : ∀ x y z, le x y = true → le y z = true → le x z = true)
    (htot : ∀ x y, le x y = true ∨ le y x = true) (a : α) {l : List α}
    (h : l.Pairwise (fun x y => le x y = true)) :
    (insertBy le a l).Pairwise (fun x y => le x y = true) := by
  induction l with
  | nil => simp [insertBy]
  | cons b t ih =>
    rcases List.pairwise_cons.mp h with ⟨hb, ht⟩
    unfold insertBy
    by_cases hab : le a b
    · simp only [hab, if_true]
      refine List.pairwise_cons.mpr ⟨?_, h⟩
      intro y hy
      rcases List.mem_cons.mp hy with rfl | hyt
      · exact hab
      · exact htrans a b y hab (hb y hyt)
    · simp only [hab, if_false]
      refine List.pairwise_cons.mpr ⟨?_, ih ht⟩
      intro y hy
      rcases (mem_insertBy le a y t).mp hy with heq | hyt
      · subst heq
        rcases htot y b with hab2 | hba
        · exact absurd hab2 hab
        · exact hba
      · exact hb y hyt

theorem pairwise_sortBy {le : α → α → Bool}
    (htrans : ∀ x y z, le x y = true → le y z = true → le x z = true)
    (htot : ∀ x y, le x y = true ∨ le y x = true) (l : List α) :
    (sortBy le l).Pairwise (fun x y => le x y = true) := by
  induction l with
  | nil => simp [sortBy]
  | cons a t ih => exact pairwise_insertBy htrans htot a ih

theorem mapExcept_forall₂ {f : α → Except PyError β} :
    ∀ {xs : List α} {ys : List β}, mapExcept f xs = .ok ys →
      List.Forall₂ (fun x y => f x = .ok y) xs ys := by
  intro xs
  induction xs with
  | nil =>
    intro ys h
    simp only [mapExcept] at h
    cases h
    exact List.Forall₂.nil
  | cons x t ih =>
    intro ys h
    simp only [mapExcept] at h
    cases hx : f x with
    | error e => rw [hx] at h; cases h
    | ok y =>
      rw [hx] at h
      cases ht : mapExcept f t with
      | error e => rw [ht] at h; cases h
      | ok ys' =>
        rw [ht] at h
        cases h
        exact List.Forall₂.cons hx (ih ht)

theorem mapExcept_ok_of {f : α → Except PyError β} :
    ∀ {xs : List α}, (∀ x ∈ xs, ∃ y, f x = .ok y) →
      ∃ ys, mapExcept f xs = .ok ys := by
  intro xs
  induction xs with
  | nil => intro _; exact ⟨[], rfl⟩
  | cons x t ih =>
    intro h
    rcases h x (List.mem_cons_self x t) with ⟨y, hy⟩
    rcases ih (fun z hz => h z (List.mem_cons_of_mem x hz)) with ⟨ys, hys⟩
    exact ⟨y :: ys, by simp [mapExcept, hy, hys]⟩

theorem keyed_facts {key : α → Except PyError κ} {xs : List α}
    {keyed : List (κ × α)}
    (hfa : List.Forall₂ (fun x y => (key x).map (fun k => (k, x)) = .ok y)
      xs keyed) :
    (∀ y ∈ keyed, key y.2 = .ok y.1) ∧ keyed.map Prod.snd = xs := by
  induction hfa with
  | nil => exact ⟨fun y hy => absurd hy (List.not_mem_nil y), rfl⟩
  | @cons x y t ys hxy hrest ih =>
    cases hk : key x with
    | error e => rw [hk] at hxy; simp [Except.map] at hxy
    | ok k =>
      rw [hk] at hxy
      simp only [Except.map] at hxy
      cases hxy
      refine ⟨?_, by simp [ih.2]⟩
      intro z hz
      rcases List.mem_cons.mp hz with rfl | hz2
      · exact hk
      · exact ih.1 z hz2

/-- Core property of the sort wrapper: when every key computation succeeds,
`pySorted` succeeds with a permutation of the input that is pairwise ordered
according to the keys. -/
theorem pySorted_ok {key : α → Except PyError κ} {le : κ → κ → Bool}
    (htrans : ∀ x y z, le x y = true → le y z = true → le x z = true)
    (htot : ∀ x y, le x y = true ∨ le y x = true) (xs : List α)
    (h : ∀ x ∈ xs, ∃ k, key x = .ok k) :
    ∃ out, pySorted key le xs = .ok out ∧ out.Perm xs ∧
      out.Pairwise (fun a b => ∀ ka kb, key a = .ok ka → key b = .ok kb →
        le ka kb = true) := by
  have hg : ∀ x ∈ xs, ∃ y, (key x).map (fun k => (k, x)) = .ok y := by
    intro x hx
    rcases h x hx with ⟨k, hk⟩
    exact ⟨(k, x), by simp [hk, Except.map]⟩
  rcases mapExcept_ok_of hg with ⟨keyed, hkeyed⟩
  have hfa := mapExcept_forall₂ hkeyed
  have hmem := (keyed_facts hfa).1
  have hsnd := (keyed_facts hfa).2
  refine ⟨(sortBy (fun p q => le p.1 q.1) keyed).map Prod.snd, ?_, ?_, ?_⟩
  · simp [pySorted, hkeyed]
  · have hp := (sortBy_perm (fun p q : κ × α => le p.1 q.1) keyed).map Prod.snd
    rw [hsnd] at hp
    exact hp
  · have hpw := @pairwise_sortBy (κ × α) (fun p q : κ × α => le p.1 q.1)
      (fun x y z hxy hyz => htrans _ _ _ hxy hyz)
      (fun x y => htot x.1 y.1) keyed
    rw [List.pairwise_map]
    have hmem2 : ∀ y ∈ sortBy (fun p q : κ × α => le p.1 q.1) keyed,
        key y.2 = .ok y.1 := by
      intro y hy
      exact hmem y ((sortBy_perm _ keyed).mem_iff.mp hy)
    refine List.Pairwise.imp_of_mem ?_ hpw
    intro p q hp hq hle ka kb hka hkb
    have h1 := hmem2 p hp
    have h2 := hmem2 q hq
    rw [h1] at hka
    rw [h2] at hkb
    cases hka
    cases hkb
    exact hle

/-! ### Comparator lemmas -/

theorem charListLt_trans : ∀ {a b c : List Char}, charListLt a b = true →
    charListLt b c = true → charListLt a c = true := by
  intro a
  induction a with
  | nil =>
    intro b c h1 h2
    cases b with
    | nil => simp [charListLt] at h1
    | cons x xs =>
      cases c with
      | nil => simp [charListLt] at h2
      | cons y ys => simp [charListLt]
  | cons d ds ih =>
    intro b c h1 h2
    cases b with
    | nil => simp [charListLt] at h1
    | cons x xs =>
      cases c with
      | nil => simp [charListLt] at h2
      | cons y ys =>
        simp only [charListLt, Bool.or_eq_true, Bool.and_eq_true,
          decide_eq_true_eq] at h1 h2 ⊢
        rcases h1 with h1 | ⟨he1, h1⟩
        · rcases h2 with h2 | ⟨he2, h2⟩
          · exact Or.inl (lt_trans h1 h2)
          · subst he2; exact Or.inl h1
        · subst he1
          rcases h2 with h2 | ⟨he2, h2⟩
          · exact Or.inl h2
          · subst he2; exact Or.inr ⟨rfl, ih h1 h2⟩

theorem charListLt_trichotomy : ∀ (a b : List Char),
    a = b ∨ charListLt a b = true ∨ charListLt b a = true := by
  intro a
  induction a with
  | nil =>
    intro b
    cases b with
    | nil => exact Or.inl rfl
    | cons y ys => exact Or.inr (Or.inl (by simp [charListLt]))
  | cons d ds ih =>
    intro b
    cases b with
    | nil => exact Or.inr (Or.inr (by simp [charListLt]))
    | cons y ys =>
      rcases lt_trichotomy d y with hdy | hdy | hdy
      · exact Or.inr (Or.inl (by simp [charListLt, hdy]))
      · subst hdy
        rcases ih ys with he | hlt | hgt
        · exact Or.inl (by rw [he])
        · exact Or.inr (Or.inl (by simp [charListLt, hlt]))
        · exact Or.inr (Or.inr (by simp [charListLt, hgt]))
      · exact Or.inr (Or.inr (by simp [charListLt, hdy]))

theorem pyStrLt_trans {a b c : String} (h1 : pyStrLt a b = true)
    (h2 : pyStrLt b c = true) : pyStrLt a c = true :=
  charListLt_trans h1 h2

theorem pyStrLt_trichotomy (a b : String) :
    a = b ∨ pyStrLt a b = true ∨ pyStrLt b a = true := by
  rcases charListLt_trichotomy a.data b.data with he | h | h
  · left
    cases a
    cases b
    exact congrArg String.mk (by simpa using he)
  · exact Or.inr (Or.inl h)
  · exact Or.inr (Or.inr h)

theorem rowKeyLE_iff (x y : Nat × String × Nat) : rowKeyLE x y = true ↔
    (x.1 < y.1 ∨ (x.1 = y.1 ∧ (pyStrLt x.2.1 y.2.1 = true ∨
      (x.2.1 = y.2.1 ∧ x.2.2 ≤ y.2.2)))) := by
  simp [rowKeyLE]

theorem rowKeyLE_trans : ∀ x y z, rowKeyLE x y = true → rowKeyLE y z = true →
    rowKeyLE x z = true := by
  intro x y z h1 h2
  rw [rowKeyLE_iff] at h1 h2 ⊢
  rcases h1 with h1 | ⟨he1, h1⟩
  · rcases h2 with h2 | ⟨he2, h2⟩
    · exact Or.inl (lt_trans h1 h2)
    · exact Or.inl (he2 ▸ h1)
  · rcases h2 with h2 | ⟨he2, h2⟩
    · exact Or.inl (he1 ▸ h2)
    · refine Or.inr ⟨he1.trans he2, ?_⟩
      rcases h1 with h1 | ⟨hs1, h1⟩
      · rcases h2 with h2 | ⟨hs2, h2⟩
        · exact Or.inl (pyStrLt_trans h1 h2)
        · exact Or.inl (hs2 ▸ h1)
      · rcases h2 with h2 | ⟨hs2, h2⟩
        · exact Or.inl (hs1 ▸ h2)
        · exact Or.inr ⟨hs1.trans hs2, h1.trans h2⟩

theorem rowKeyLE_total : ∀ x y, rowKeyLE x y = true ∨ rowKeyLE y x = true := by
  intro x y
  rw [rowKeyLE_iff, rowKeyLE_iff]
  rcases Nat.lt_trichotomy x.1 y.1 with h | h | h
  · exact Or.inl (Or.inl h)
  · rcases pyStrLt_trichotomy x.2.1 y.2.1 with hs | hs | hs
    · rcases Nat.le_total x.2.2 y.2.2 with hn | hn
      · exact Or.inl (Or.inr ⟨h, Or.inr ⟨hs, hn⟩⟩)
      · exact Or.inr (Or.inr ⟨h.symm, Or.inr ⟨hs.symm, hn⟩⟩)
    · exact Or.inl (Or.inr ⟨h, Or.inl hs⟩)
    · exact Or.inr (Or.inr ⟨h.symm, Or.inl hs⟩)
  · exact Or.inr (Or.inl h)

theorem colKeyLE_iff (x y : Nat × Nat) : colKeyLE x y = true ↔
    (x.1 < y.1 ∨ (x.1 = y.1 ∧ x.2 ≤ y.2)) := by
  simp [colKeyLE]

theorem colKeyLE_trans : ∀ x y z, colKeyLE x y = true → colKeyLE y z = true →
    colKeyLE x z = true := by
  intro x y z h1 h2
  rw [colKeyLE_iff] at h1 h2 ⊢
  omega

theorem colKeyLE_total : ∀ x y, colKeyLE x y = true ∨ colKeyLE y x = true := by
  intro x y
  rw [colKeyLE_iff, colKeyLE_iff]
  omega

/-! ### Grid and product-list lemmas -/

theorem length_flatMap_product (l1 : List α) (l2 : List β) (f : α → β → γ) :
    (l1.flatMap (fun a => l2.map (f a))).length = l1.length * l2.length := by
  induction l1 with
  | nil => simp
  | cons a t ih => simp [ih, Nat.succ_mul, Nat.add_comm]

theorem getElem_flatMap_product (l1 : List α) (l2 : List β) (f : α → β → γ) :
    ∀ (i j : Nat) (hi : i < l1.length) (hj : j < l2.length)
      (hidx : i * l2.length + j < (l1.flatMap (fun a => l2.map (f a))).length),
      (l1.flatMap (fun a => l2.map (f a)))[i * l2.length + j] =
        f (l1[i]) (l2[j]) := by
  induction l1 with
  | nil => intro i j hi; cases hi
  | cons a t ih =>
    intro i j hi hj hidx
    cases i with
    | zero =>
      simp only [List.flatMap_cons, Nat.zero_mul, Nat.zero_add]
      rw [List.getElem_append_left (by simpa using hj)]
      simp
    | succ i2 =>
      simp only [List.flatMap_cons]
      have hmul : (i2 + 1) * l2.length = i2 * l2.length + l2.length := by
        rw [Nat.add_mul, Nat.one_mul]
      have hge : (l2.map (f a)).length ≤ (i2 + 1) * l2.length + j := by
        simp only [List.length_map]
        omega
      rw [List.getElem_append_right hge]
      have hsub : (i2 + 1) * l2.length + j - (l2.map (f a)).length =
          i2 * l2.length + j := by
        simp only [List.length_map]
        omega
      simp only [hsub]
      rw [ih i2 j (by simpa using hi) hj]
      simp

theorem count_map_pair (x a : String) (b : String)
    (l2 : List String) :
    ((l2.map (fun y => (x, y))).count (a, b)) =
      if x = a then l2.count b else 0 := by
  induction l2 with
  | nil => simp
  | cons y t ih =>
    by_cases hxa : x = a
    · subst hxa
      by_cases hyb : y = b <;>
        simp [List.count_cons, ih, hyb, Prod.ext_iff]
    · simp [List.count_cons, ih, hxa, Prod.ext_iff]

theorem count_flatMap_pair (l1 : List String)
    (l2 : List String) (a : String) (b : String) :
    ((l1.flatMap (fun x => l2.map (fun y => (x, y)))).count (a, b)) =
      l1.count a * l2.count b := by
  induction l1 with
  | nil => simp
  | cons x t ih =>
    simp only [List.flatMap_cons, List.count_append, ih, count_map_pair,
      List.count_cons]
    by_cases hxa : x = a
    · subst hxa
      simp [Nat.add_mul, Nat.add_comm]
    · simp [hxa, Ne.symm hxa]

theorem gridCoords_length (rows cols : Nat) :
    (gridCoords rows cols).length = rows * cols := by
  unfold gridCoords
  rw [length_flatMap_product]
  simp

theorem gridCoords_getElem (rows cols i j : Nat) (hi : i < rows)
    (hj : j < cols) (hidx : i * cols + j < (gridCoords rows cols).length) :
    (gridCoords rows cols)[i * cols + j] = (i, j) := by
  have h := getElem_flatMap_product (List.range rows) (List.range cols)
    (fun r c => (r, c)) i j (by simpa using hi) (by simpa using hj)
  simp only [List.length_range] at h
  have hidx2 : i * cols + j <
      ((List.range rows).flatMap
        (fun r => (List.range cols).map (fun c => (r, c)))).length := by
    simpa [gridCoords] using hidx
  have h2 := h hidx2
  rw [List.getElem_range, List.getElem_range] at h2
  simpa [gridCoords] using h2

/-! ### Drawing-loop lemmas -/

theorem drawPanels_ok :
    ∀ {ps : List (String × String)} {cs : List (Nat × Nat)} {data : Table}
      {l : List Panel}, drawPanels ps cs data = .ok l →
      l.length = ps.length ∧ ps.length ≤ cs.length ∧
      (∀ k (hk : k < ps.length) (hck : k < cs.length) (hlk : k < l.length),
        ∃ v, lookup2 data (ps[k]).2 (ps[k]).1 = .ok v ∧
          l[k] = plotPie v (cs[k]).1 (cs[k]).2 (ps[k]).1 (ps[k]).2) ∧
      l.map (fun pl => (pl.approach, pl.name)) = ps := by
  intro ps
  induction ps with
  | nil =>
    intro cs data l h
    simp only [drawPanels] at h
    cases h
    refine ⟨rfl, Nat.zero_le _, ?_, rfl⟩
    intro k hk
    cases hk
  | cons p pt ih =>
    intro cs data l h
    obtain ⟨a, n⟩ := p
    cases cs with
    | nil =>
      simp only [drawPanels] at h
      cases h
    | cons c ct =>
      obtain ⟨r, co⟩ := c
      simp only [drawPanels] at h
      cases hv : lookup2 data n a with
      | error e => rw [hv] at h; cases h
      | ok v =>
        rw [hv] at h
        cases hrest : drawPanels pt ct data with
        | error e => rw [hrest] at h; cases h
        | ok rest =>
          rw [hrest] at h
          cases h
          rcases ih hrest with ⟨hlen, hle, hidx, hmap⟩
          refine ⟨by simp [hlen], by simpa using hle, ?_, by simp [hmap, plotPie]⟩
          intro k hk hck hlk
          cases k with
          | zero => exact ⟨v, hv, rfl⟩
          | succ k2 =>
            have h2 := hidx k2 (by simpa using hk) (by simpa using hck)
              (by simpa [hlen] using hk)
            simpa using h2

/-! ### Consistency-checker lemmas -/

theorem checkLoop_some : ∀ (l : Table) (a : List String),
    checkLoop (some a) l =
      (if l.all (fun e => sameSet (innerKeys e.2) a) then .ok (some a)
       else .error .assertionError) := by
  intro l
  induction l with
  | nil => intro a; simp [checkLoop]
  | cons e t ih =>
    intro a
    simp only [checkLoop, List.all_cons]
    by_cases h : sameSet (innerKeys e.2) a
    · simp only [h, if_true, Bool.true_and]
      exact ih a
    · simp [h]

/-- Characterisation of `checkApproachNames` on a non-empty table: it
returns the first mutation's approach-name set when every entry's set
equals it, and fails with the assertion error otherwise. -/
theorem checkApproachNames_cons (e : String × Inner) (t : Table) :
    checkApproachNames (e :: t) =
      (if t.all (fun e2 => sameSet (innerKeys e2.2) (innerKeys e.2))
       then .ok (innerKeys e.2) else .error .assertionError) := by
  simp only [checkApproachNames, checkLoop, checkLoop_some]
  by_cases h : t.all (fun e2 => sameSet (innerKeys e2.2) (innerKeys e.2)) <;>
    simp [h]

/-! ### Association-list lemmas -/

theorem lookup_cons {β : Type} (a k : String) (v : β)
    (t : List (String × β)) :
    List.lookup a ((k, v) :: t) = if a = k then some v else List.lookup a t := by
  by_cases h : a = k
  · simp [List.lookup, h]
  · have hb : (a == k) = false := beq_eq_false_iff_ne.mpr h
    simp [List.lookup, hb, h]

theorem setInner_cons (k : String) (w : Inner) (t : Table) (n : String)
    (i : Inner) :
    setInner ((k, w) :: t) n i =
      (if k = n then (k, i) else (k, w)) :: setInner t n i := by
  by_cases h : k = n <;> simp [setInner, h]

theorem lookup_isSome_iff {β : Type} (a : String) (l : List (String × β)) :
    (List.lookup a l).isSome ↔ a ∈ l.map Prod.fst := by
  induction l with
  | nil => simp
  | cons e t ih =>
    obtain ⟨k, v⟩ := e
    rw [lookup_cons]
    by_cases h : a = k
    · simp [h]
    · rw [if_neg h, ih]
      simp [h]

theorem lookup_append_of_some {β : Type} {a : String} {l : List (String × β)}
    {v : β} (h : List.lookup a l = some v) (s : List (String × β)) :
    List.lookup a (l ++ s) = some v := by
  induction l with
  | nil => simp [List.lookup] at h
  | cons e t ih =>
    obtain ⟨k, w⟩ := e
    rw [lookup_cons] at h
    rw [List.cons_append, lookup_cons]
    by_cases hk : a = k
    · rw [if_pos hk] at h
      rw [if_pos hk]
      exact h
    · rw [if_neg hk] at h
      rw [if_neg hk]
      exact ih h

theorem lookup_append_of_none {β : Type} {a : String} {l : List (String × β)}
    (h : List.lookup a l = none) (s : List (String × β)) :
    List.lookup a (l ++ s) = List.lookup a s := by
  induction l with
  | nil => simp
  | cons e t ih =>
    obtain ⟨k, w⟩ := e
    rw [lookup_cons] at h
    rw [List.cons_append, lookup_cons]
    by_cases hk : a = k
    · rw [if_pos hk] at h
      cases h
    · rw [if_neg hk] at h
      rw [if_neg hk]
      exact ih h

theorem setInner_keys (t : Table) (n : String) (i : Inner) :
    (setInner t n i).map Prod.fst = t.map Prod.fst := by
  induction t with
  | nil => rfl
  | cons e t ih =>
    obtain ⟨k, w⟩ := e
    rw [setInner_cons]
    by_cases hk : k = n
    · rw [if_pos hk]
      simp [ih, hk]
    · rw [if_neg hk]
      simp [ih]

theorem setInner_id {t : Table} {n : String} (h : n ∉ t.map Prod.fst)
    (i : Inner) : setInner t n i = t := by
  induction t with
  | nil => rfl
  | cons e t ih =>
    obtain ⟨k, w⟩ := e
    simp only [List.map_cons, List.mem_cons] at h
    push_neg at h
    rw [setInner_cons, if_neg (fun hh => h.1 hh.symm), ih h.2]

theorem lookup_setInner_self {t : Table} {n : String} {inner0 : Inner}
    (h : List.lookup n t = some inner0) (i : Inner) :
    List.lookup n (setInner t n i) = some i := by
  induction t with
  | nil => simp [List.lookup] at h
  | cons e t ih =>
    obtain ⟨k, w⟩ := e
    rw [lookup_cons] at h
    rw [setInner_cons]
    by_cases hk : n = k
    · rw [if_pos hk.symm, lookup_cons, if_pos hk]
    · rw [if_neg hk] at h
      rw [if_neg (fun hh => hk hh.symm), lookup_cons, if_neg hk]
      exact ih h

theorem lookup_setInner_other {t : Table} {n m : String} (hnm : m ≠ n)
    (i : Inner) : List.lookup m (setInner t n i) = List.lookup m t := by
  induction t with
  | nil => rfl
  | cons e t ih =>
    obtain ⟨k, w⟩ := e
    rw [setInner_cons]
    by_cases hk : k = n
    · have hmk : ¬m = k := fun hh => hnm (hh.trans hk)
      rw [if_pos hk, lookup_cons, lookup_cons, if_neg hmk, if_neg hmk]
      exact ih
    · rw [if_neg hk, lookup_cons, lookup_cons]
      by_cases hmk : m = k
      · rw [if_pos hmk, if_pos hmk]
      · rw [if_neg hmk, if_neg hmk]
        exact ih

theorem mem_tablePairs_iff {t : Table} (hwf : (t.map Prod.fst).Nodup)
    (n a : String) :
    (n, a) ∈ tablePairs t ↔
      (List.lookup a ((List.lookup n t).getD [])).isSome := by
  induction t with
  | nil => simp [tablePairs, List.lookup]
  | cons e t ih =>
    obtain ⟨m, inner⟩ := e
    simp only [List.map_cons, List.nodup_cons] at hwf
    rw [lookup_cons]
    by_cases hnm : n = m
    · subst hnm
      rw [if_pos rfl]
      simp only [tablePairs, List.flatMap_cons, List.mem_append,
        Option.getD_some]
      constructor
      · rintro (h | h)
        · rcases List.mem_map.mp h with ⟨q, hq, he⟩
          injection he with h1 h2
          subst h2
          rw [lookup_isSome_iff]
          exact List.mem_map.mpr ⟨q, hq, rfl⟩
        · exfalso
          apply hwf.1
          rcases List.mem_flatMap.mp h with ⟨p, hp, hx⟩
          rcases List.mem_map.mp hx with ⟨q, hq, he⟩
          injection he with h1 h2
          subst h1
          exact List.mem_map.mpr ⟨p, hp, rfl⟩
      · intro h
        left
        rw [lookup_isSome_iff] at h
        rcases List.mem_map.mp h with ⟨q, hq, he⟩
        subst he
        exact List.mem_map.mpr ⟨q, hq, rfl⟩
    · rw [if_neg hnm, ← ih hwf.2]
      simp only [tablePairs, List.flatMap_cons, List.mem_append]
      constructor
      · rintro (h | h)
        · rcases List.mem_map.mp h with ⟨q, hq, he⟩
          injection he with h1 h2
          exact absurd h1.symm hnm
        · exact h
      · intro h
        exact Or.inr h

/-! ### Step lemmas for the loader -/

theorem tablePairs_append (t : Table) (e : String × Inner) :
    tablePairs (t ++ [e]) = tablePairs t ++ e.2.map (fun q => (e.1, q.1)) := by
  simp [tablePairs]

theorem stepTable_keys_nodup {t : Table} (hwf : (t.map Prod.fst).Nodup)
    (n a : String) (v : Option ℚ) :
    ((stepTable t n a v).map Prod.fst).Nodup := by
  simp only [stepTable]
  by_cases h : (List.lookup n t).isSome
  · rw [if_pos h, setInner_keys]
    exact hwf
  · rw [if_neg h, List.map_append]
    rw [List.nodup_append]
    refine ⟨hwf, by simp, ?_⟩
    intro x hx hx2
    simp only [List.map_cons, List.map_nil, List.mem_singleton] at hx2
    subst hx2
    rw [← lookup_isSome_iff] at hx
    exact h hx

theorem tablePairs_cons (e : String × Inner) (t : Table) :
    tablePairs (e :: t) = e.2.map (fun q => (e.1, q.1)) ++ tablePairs t := rfl

theorem count_singleton_pair (x y : String × String) :
    List.count x [y] = if x = y then 1 else 0 := by
  by_cases h : x = y <;> simp [List.count_cons, h]

theorem count_tablePairs_setInner {t : Table}
    (hwf : (t.map Prod.fst).Nodup) {n : String} {inner0 : Inner}
    (hl : List.lookup n t = some inner0) (item : String × Option ℚ)
    (x : String × String) :
    (tablePairs (setInner t n (inner0 ++ [item]))).count x =
      (tablePairs t).count x + (if x = (n, item.1) then 1 else 0) := by
  induction t with
  | nil => simp [List.lookup] at hl
  | cons e t ih =>
    obtain ⟨k, w⟩ := e
    simp only [List.map_cons, List.nodup_cons] at hwf
    rw [lookup_cons] at hl
    rw [setInner_cons]
    by_cases hk : n = k
    · subst hk
      rw [if_pos rfl] at hl
      cases hl
      rw [if_pos rfl, setInner_id hwf.1]
      rw [tablePairs_cons, tablePairs_cons, List.count_append,
        List.count_append]
      simp only [List.map_append, List.count_append, List.map_cons,
        List.map_nil]
      rw [count_singleton_pair]
      omega
    · rw [if_neg hk] at hl
      rw [if_neg (fun hh => hk hh.symm)]
      rw [tablePairs_cons, tablePairs_cons, List.count_append,
        List.count_append, ih hwf.2 hl]
      omega

theorem stepTable_count {t : Table} (hwf : (t.map Prod.fst).Nodup)
    (n a : String) (v : Option ℚ) (x : String × String) :
    (tablePairs (stepTable t n a v)).count x =
      (tablePairs t).count x + (if x = (n, a) then 1 else 0) := by
  simp only [stepTable]
  cases hl : List.lookup n t with
  | some inner0 =>
    rw [if_pos (show (some inner0).isSome = true from rfl)]
    simp only [Option.getD_some]
    exact count_tablePairs_setInner hwf hl (a, v) x
  | none =>
    rw [if_neg (by simp)]
    simp only [Option.getD_none, List.nil_append]
    rw [tablePairs_append, List.count_append]
    have h1 : (([(a, v)] : Inner).map (fun q => ((n, [(a, v)]).1, q.1))) =
        [(n, a)] := by simp
    rw [h1, count_singleton_pair]

theorem stepTable_binding {t : Table} {n a : String}
    (hdup : List.lookup a ((List.lookup n t).getD []) = none) (v : Option ℚ) :
    List.lookup a ((List.lookup n (stepTable t n a v)).getD []) = some v := by
  simp only [stepTable]
  cases hl : List.lookup n t with
  | some inner0 =>
    rw [if_pos (show (some inner0).isSome = true from rfl)]
    simp only [Option.getD_some]
    rw [lookup_setInner_self hl]
    simp only [Option.getD_some]
    rw [hl] at hdup
    simp only [Option.getD_some] at hdup
    rw [lookup_append_of_none hdup]
    simp [List.lookup]
  | none =>
    rw [if_neg (by simp)]
    simp only [Option.getD_none, List.nil_append]
    rw [lookup_append_of_none hl]
    rw [lookup_cons, if_pos rfl]
    simp [List.lookup]

theorem stepTable_preserve {t : Table} {m b : String} {w : Option ℚ}
    (hb : List.lookup b ((List.lookup m t).getD []) = some w)
    (n a : String) (v : Option ℚ) :
    List.lookup b ((List.lookup m (stepTable t n a v)).getD []) = some w := by
  have hm : ∃ innerm, List.lookup m t = some innerm := by
    cases hml : List.lookup m t with
    | none => rw [hml] at hb; simp [List.lookup] at hb
    | some i => exact ⟨i, rfl⟩
  obtain ⟨innerm, hml⟩ := hm
  rw [hml] at hb
  simp only [Option.getD_some] at hb
  simp only [stepTable]
  by_cases hmn : m = n
  · subst hmn
    rw [if_pos (by rw [hml]; rfl)]
    rw [lookup_setInner_self hml]
    simp only [Option.getD_some]
    rw [hml]
    simp only [Option.getD_some]
    exact lookup_append_of_some hb _
  · by_cases hns : (List.lookup n t).isSome
    · rw [if_pos hns, lookup_setInner_other hmn, hml]
      simpa using hb
    · rw [if_neg hns, lookup_append_of_some hml]
      simpa using hb

/-- Unfolding of the row loop on a well-shaped row. -/
theorem loadRows_cons_good (t : Table) (n a p u : String)
    (rest : List (List String)) :
    loadRows t ([n, a, p, u] :: rest) =
      (if (List.lookup a ((List.lookup n t).getD [])).isSome then
        .error (.systemExit 1 (dupMessage a n))
      else
        match (if p = "" then some none else (pyFloat p).map some) with
        | none =>
          .error (.valueError ("could not convert string to float: "
            ++ pyRepr p))
        | some v => loadRows (stepTable t n a v) rest) := rfl

theorem lookup2_of_binding {t : Table} {n a : String} {v : Option ℚ}
    (h : List.lookup a ((List.lookup n t).getD []) = some v) :
    lookup2 t n a = .ok v := by
  cases ht : List.lookup n t with
  | none => rw [ht] at h; simp [List.lookup] at h
  | some inner =>
    rw [ht] at h
    simp only [Option.getD_some] at h
    simp [lookup2, ht, h]

theorem pair_nodup_iff_count (l : List (String × String)) :
    l.Nodup ↔ ∀ x, l.count x ≤ 1 := by
  induction l with
  | nil => simp
  | cons y t ih =>
    rw [List.nodup_cons]
    constructor
    · rintro ⟨hy, ht⟩ x
      rw [List.count_cons]
      by_cases hx : x = y
      · subst hx
        have h0 : t.count x = 0 := List.count_eq_zero.mpr hy
        rw [h0]
        simp
      · have hne : (y == x) = false :=
          beq_eq_false_iff_ne.mpr (fun hh => hx hh.symm)
        simp only [hne, Bool.false_eq_true, if_false, Nat.add_zero]
        exact ih.mp ht x
    · intro hc
      refine ⟨?_, ih.mpr (fun x => ?_)⟩
      · intro hy
        have hcy := hc y
        rw [List.count_cons] at hcy
        simp only [beq_self_eq_true, if_true] at hcy
        have h0 : t.count y = 0 := by omega
        exact (List.count_eq_zero.mp h0) hy
      · have hcx := hc x
        rw [List.count_cons] at hcx
        omega

/-- Invariants of a successful load: outer keys stay distinct, the stored
(mutation, approach) pairs are exactly the input rows' pairs (counted with
multiplicity), and pair-distinctness is preserved. -/
theorem loadRows_ok_facts :
    ∀ {rest : List (List String)} {t t2 : Table}, loadRows t rest = .ok t2 →
      (t.map Prod.fst).Nodup →
      ((t2.map Prod.fst).Nodup ∧
        (∀ x, (tablePairs t2).count x =
          (tablePairs t).count x + ((rest.map pairOf).count x)) ∧
        ((tablePairs t).Nodup → (tablePairs t2).Nodup)) := by
  intro rest
  induction rest with
  | nil =>
    intro t t2 h hwf
    simp only [loadRows] at h
    cases h
    exact ⟨hwf, by simp, id⟩
  | cons row rest ih =>
    intro t t2 h hwf
    rcases row with _ | ⟨n, _ | ⟨a, _ | ⟨p, _ | ⟨u, rtail⟩⟩⟩⟩
    · simp only [loadRows] at h; cases h
    · simp only [loadRows] at h; cases h
    · simp only [loadRows] at h; cases h
    · simp only [loadRows] at h; cases h
    · cases rtail with
      | cons r5 rtail2 => simp only [loadRows] at h; cases h
      | nil =>
        rw [loadRows_cons_good] at h
        by_cases hdup : (List.lookup a ((List.lookup n t).getD [])).isSome
        · rw [if_pos hdup] at h; cases h
        · rw [if_neg hdup] at h
          cases hv : (if p = "" then some none else (pyFloat p).map some) with
          | none => rw [hv] at h; cases h
          | some v =>
            rw [hv] at h
            have hwf2 := stepTable_keys_nodup hwf n a v
            rcases ih h hwf2 with ⟨hN, hC, hD⟩
            have hpair : pairOf [n, a, p, u] = (n, a) := rfl
            refine ⟨hN, ?_, ?_⟩
            · intro x
              rw [hC x, stepTable_count hwf n a v x]
              have hcc : ((([n, a, p, u] : List String) :: rest).map
                    pairOf).count x =
                  ((rest.map pairOf).count x) +
                    (if x = (n, a) then 1 else 0) := by
                by_cases hx : x = (n, a) <;>
                  simp [List.count_cons, hpair, hx]
              rw [hcc]
              omega
            · intro hTP
              apply hD
              rw [pair_nodup_iff_count] at hTP ⊢
              intro x
              rw [stepTable_count hwf n a v x]
              by_cases hx : x = (n, a)
              · rw [if_pos hx, hx]
                have h0 : (tablePairs t).count (n, a) = 0 :=
                  List.count_eq_zero.mpr
                    (fun hmem => hdup ((mem_tablePairs_iff hwf n a).mp hmem))
                omega
              · rw [if_neg hx]
                have := hTP x
                omega

/-- A failing load under well-shaped rows can only be the duplicate-pair
exit: status 1, the message naming the approach and the mutation, and the
named pair really occurring at least twice. -/
theorem loadRows_error_dup :
    ∀ {rest : List (List String)} {t : Table} {e : PyError},
      (∀ row ∈ rest, goodRow row = true) → (t.map Prod.fst).Nodup →
      loadRows t rest = .error e →
      ∃ a n, e = .systemExit 1 (dupMessage a n) ∧
        2 ≤ (tablePairs t ++ rest.map pairOf).count (n, a) := by
  intro rest
  induction rest with
  | nil =>
    intro t e hg hwf h
    simp only [loadRows] at h
    cases h
  | cons row rest ih =>
    intro t e hg hwf h
    have hgrow := hg row (List.mem_cons_self row rest)
    rcases row with _ | ⟨n, _ | ⟨a, _ | ⟨p, _ | ⟨u, rtail⟩⟩⟩⟩
    · simp [goodRow] at hgrow
    · simp [goodRow] at hgrow
    · simp [goodRow] at hgrow
    · simp [goodRow] at hgrow
    · cases rtail with
      | cons r5 rtail2 => simp [goodRow] at hgrow
      | nil =>
        rw [loadRows_cons_good] at h
        have hpair : pairOf [n, a, p, u] = (n, a) := rfl
        by_cases hdup : (List.lookup a ((List.lookup n t).getD [])).isSome
        · rw [if_pos hdup] at h
          cases h
          refine ⟨a, n, rfl, ?_⟩
          have hmem : (n, a) ∈ tablePairs t :=
            (mem_tablePairs_iff hwf n a).mpr hdup
          have h1 : 0 < (tablePairs t).count (n, a) :=
            List.count_pos_iff.mpr hmem
          rw [List.count_append]
          simp only [List.map_cons, hpair, List.count_cons]
          simp only [beq_self_eq_true, if_true]
          omega
        · rw [if_neg hdup] at h
          have hparse : ∃ v,
              (if p = "" then some none else (pyFloat p).map some) = some v := by
            by_cases hp : p = ""
            · exact ⟨none, by simp [hp]⟩
            · simp only [goodRow, hp, Bool.or_eq_true, decide_eq_true_eq] at hgrow
              rcases hgrow with hfalse | hsome
              · exact hfalse.elim
              · obtain ⟨q, hq⟩ := Option.isSome_iff_exists.mp hsome
                exact ⟨some q, by simp [hp, hq]⟩
          obtain ⟨v, hv⟩ := hparse
          rw [hv] at h
          rcases ih (fun r hr => hg r (List.mem_cons_of_mem _ hr))
            (stepTable_keys_nodup hwf n a v) h with ⟨a2, n2, he, hc⟩
          refine ⟨a2, n2, he, ?_⟩
          rw [List.count_append] at hc ⊢
          rw [stepTable_count hwf n a v (n2, a2)] at hc
          have hcc : ((([n, a, p, u] : List String) :: rest).map
                pairOf).count (n2, a2) =
              ((rest.map pairOf).count (n2, a2)) +
                (if (n2, a2) = (n, a) then 1 else 0) := by
            by_cases hx : (n2, a2) = (n, a) <;>
              simp [List.count_cons, hpair, hx]
          rw [hcc]
          omega

/-- Bindings already present in the table survive the rest of the load. -/
theorem loadRows_preserve :
    ∀ {rest : List (List String)} {t t2 : Table}, loadRows t rest = .ok t2 →
      ∀ {m b : String} {w : Option ℚ},
        List.lookup b ((List.lookup m t).getD []) = some w →
        List.lookup b ((List.lookup m t2).getD []) = some w := by
  intro rest
  induction rest with
  | nil =>
    intro t t2 h m b w hb
    simp only [loadRows] at h
    cases h
    exact hb
  | cons row rest ih =>
    intro t t2 h m b w hb
    rcases row with _ | ⟨n, _ | ⟨a, _ | ⟨p, _ | ⟨u, rtail⟩⟩⟩⟩
    · simp only [loadRows] at h; cases h
    · simp only [loadRows] at h; cases h
    · simp only [loadRows] at h; cases h
    · simp only [loadRows] at h; cases h
    · cases rtail with
      | cons r5 rtail2 => simp only [loadRows] at h; cases h
      | nil =>
        rw [loadRows_cons_good] at h
        by_cases hdup : (List.lookup a ((List.lookup n t).getD [])).isSome
        · rw [if_pos hdup] at h; cases h
        · rw [if_neg hdup] at h
          cases hv : (if p = "" then some none else (pyFloat p).map some) with
          | none => rw [hv] at h; cases h
          | some v =>
            rw [hv] at h
            exact ih h (stepTable_preserve hb n a v)

/-- Round-trip property of the loader: a processed row's value is found in
the final table, as `None` when the percent field was empty and as the
parsed number otherwise. -/
theorem loadRows_binding :
    ∀ {rest : List (List String)} {t t2 : Table},
      loadRows t rest = .ok t2 →
      ∀ {n a p u : String}, [n, a, p, u] ∈ rest →
        ∃ v, List.lookup a ((List.lookup n t2).getD []) = some v ∧
          (p = "" → v = none) ∧
          (∀ q, pyFloat p = some q → p ≠ "" → v = some q) := by
  intro rest
  induction rest with
  | nil =>
    intro t t2 h n a p u hmem
    cases hmem
  | cons row rest ih =>
    intro t t2 h n a p u hmem
    rcases List.mem_cons.mp hmem with heq | hmem2
    · subst heq
      rw [loadRows_cons_good] at h
      by_cases hdup : (List.lookup a ((List.lookup n t).getD [])).isSome
      · rw [if_pos hdup] at h; cases h
      · rw [if_neg hdup] at h
        cases hv : (if p = "" then some none else (pyFloat p).map some) with
        | none => rw [hv] at h; cases h
        | some v =>
          rw [hv] at h
          have hdup2 : List.lookup a ((List.lookup n t).getD []) = none :=
            Option.not_isSome_iff_eq_none.mp hdup
          have hstep := stepTable_binding hdup2 v
          refine ⟨v, loadRows_preserve h hstep, ?_, ?_⟩
          · intro hp
            rw [if_pos hp] at hv
            cases hv
            rfl
          · intro q hq hp
            rw [if_neg hp, hq] at hv
            have hv2 : some (some q) = some v := hv
            cases hv2
            rfl
    · rcases row with _ | ⟨n0, _ | ⟨a0, _ | ⟨p0, _ | ⟨u0, rtail⟩⟩⟩⟩
      · simp only [loadRows] at h; cases h
      · simp only [loadRows] at h; cases h
      · simp only [loadRows] at h; cases h
      · simp only [loadRows] at h; cases h
      · cases rtail with
        | cons r5 rtail2 => simp only [loadRows] at h; cases h
        | nil =>
          rw [loadRows_cons_good] at h
          by_cases hdup :
              (List.lookup a0 ((List.lookup n0 t).getD [])).isSome
          · rw [if_pos hdup] at h; cases h
          · rw [if_neg hdup] at h
            cases hv :
                (if p0 = "" then some none else (pyFloat p0).map some) with
            | none => rw [hv] at h; cases h
            | some v => rw [hv] at h; exact ih h hmem2

/-! ### Sort-key characterisations -/

theorem rowKey_eq {x t m : String} (hpw : pyWords x = [t, m])
    (hm : m = "native" ∨ m = "cap") :
    rowKey x = .ok ((if t ≠ "Serum" then 1 else 0), t,
      (if m = "native" then 0 else 1)) := by
  rcases hm with rfl | rfl
  · unfold rowKey
    rw [hpw]
    rfl
  · unfold rowKey
    rw [hpw]
    rfl

theorem rowKey_le_iff_spec {x y tx mx ty my : String}
    (hx : pyWords x = [tx, mx]) (hmx : mx = "native" ∨ mx = "cap")
    (hy : pyWords y = [ty, my]) (hmy : my = "native" ∨ my = "cap")
    {kx ky : Nat × String × Nat} (hkx : rowKey x = .ok kx)
    (hky : rowKey y = .ok ky) :
    (rowKeyLE kx ky = true ↔ specRowLE x y) := by
  rw [rowKey_eq hx hmx] at hkx
  rw [rowKey_eq hy hmy] at hky
  cases hkx
  cases hky
  rw [rowKeyLE_iff]
  unfold specRowLE specTissue specMethod
  rw [hx, hy]
  simp only [List.getD_cons_zero, List.getD_cons_succ]
  have hswap : ∀ s : String,
      (if s ≠ "Serum" then (1 : Nat) else 0) =
        (if s = "Serum" then (0 : Nat) else 1) := by
    intro s
    by_cases h : s = "Serum" <;> simp [h]
  rw [hswap tx, hswap ty]

theorem columnKey_eq {x orf mtn : String}
    (hsp : pySplitChar x ':' = [orf, mtn]) {o p : Nat}
    (ho : digitsSearch orf = some o) (hp : digitsSearch mtn = some p) :
    columnKey x = .ok (o, p) := by
  unfold columnKey
  rw [hsp]
  simp only [ho, hp]

theorem columnKey_le_iff_spec {x y orfx mtnx orfy mtny : String}
    (hx : pySplitChar x ':' = [orfx, mtnx])
    (hy : pySplitChar y ':' = [orfy, mtny]) {ox px oy py2 : Nat}
    (hox : digitsSearch orfx = some ox) (hpx : digitsSearch mtnx = some px)
    (hoy : digitsSearch orfy = some oy) (hpy : digitsSearch mtny = some py2) :
    (colKeyLE (ox, px) (oy, py2) = true ↔ specColLE x y) := by
  rw [colKeyLE_iff]
  unfold specColLE specOrf specMut
  rw [hx, hy]
  simp only [List.getD_cons_zero, List.getD_cons_succ, hox, hpx, hoy, hpy,
    Option.getD_some]

/-! ### Claim C1 -/

/-- C1: for collections of two-token approach names "<tissue> <method>"
with method in {"native", "cap"}, sorting by the row key succeeds, permutes
the input, and orders it primarily with "Serum" before any other tissue,
secondarily by the tissue string, and tertiarily with "native" before
"cap"; in particular the set {"Serum native", "Serum cap", "Saliva native"}
sorts as ["Serum native", "Serum cap", "Saliva native"]. -/
theorem C1_row_order :
    (∀ names : List String, (∀ x ∈ names, wfRowName x) →
      ∃ out, pySorted rowKey rowKeyLE names = .ok out ∧ out.Perm names ∧
        out.Pairwise specRowLE) ∧
    pySorted rowKey rowKeyLE ["Serum native", "Serum cap", "Saliva native"] =
      .ok ["Serum native", "Serum cap", "Saliva native"] := by
  constructor
  · intro names hwfl
    have hkeys : ∀ x ∈ names, ∃ k, rowKey x = .ok k := by
      intro x hx
      rcases hwfl x hx with ⟨t, m, hpw, hm⟩
      exact ⟨_, rowKey_eq hpw hm⟩
    rcases pySorted_ok rowKeyLE_trans rowKeyLE_total names hkeys with
      ⟨out, hout, hperm, hpw⟩
    refine ⟨out, hout, hperm, ?_⟩
    refine List.Pairwise.imp_of_mem ?_ hpw
    intro a b ha hb hle
    rcases hwfl a (hperm.mem_iff.mp ha) with ⟨ta, ma, hpa, hma⟩
    rcases hwfl b (hperm.mem_iff.mp hb) with ⟨tb, mb, hpb, hmb⟩
    have hka := rowKey_eq hpa hma
    have hkb := rowKey_eq hpb hmb
    exact (rowKey_le_iff_spec hpa hma hpb hmb hka hkb).mp (hle _ _ hka hkb)
  · decide

/-- Witness for C1: the three-name example satisfies the hypotheses, and
the theorem applies to it. -/
theorem C1_row_order_witness :
    (∀ x ∈ (["Serum native", "Serum cap", "Saliva native"] : List String),
      wfRowName x) ∧
    (∃ out, pySorted rowKey rowKeyLE
        ["Serum native", "Serum cap", "Saliva native"] = .ok out ∧
      out.Perm ["Serum native", "Serum cap", "Saliva native"] ∧
      out.Pairwise specRowLE) := by
  have hw : ∀ x ∈ (["Serum native", "Serum cap", "Saliva native"] :
      List String), wfRowName x := by
    intro x hx
    simp only [List.mem_cons, List.not_mem_nil, or_false] at hx
    rcases hx with rfl | rfl | rfl
    · exact ⟨"Serum", "native", by decide, Or.inl rfl⟩
    · exact ⟨"Serum", "cap", by decide, Or.inr rfl⟩
    · exact ⟨"Saliva", "native", by decide, Or.inl rfl⟩
  exact ⟨hw, C1_row_order.1 _ hw⟩

/-! ### Claim C2 -/

/-- C2: for collections of mutation names "<ORF>:<mutation>" with a digit
run in both tokens, sorting by the column key succeeds, permutes the input,
and orders it ascending by the pair (first digit run of the ORF token,
first digit run of the mutation token) — not lexicographically (the string
"ORF10:A12T" precedes "ORF2:A5G" lexicographically but follows it in key
order); in particular {"ORF10:A12T", "ORF2:B100C", "ORF2:A5G"} sorts as
["ORF2:A5G", "ORF2:B100C", "ORF10:A12T"]. -/
theorem C2_column_order :
    (∀ names : List String, (∀ x ∈ names, wfColName x) →
      ∃ out, pySorted columnKey colKeyLE names = .ok out ∧ out.Perm names ∧
        out.Pairwise specColLE) ∧
    pySorted columnKey colKeyLE ["ORF10:A12T", "ORF2:B100C", "ORF2:A5G"] =
      .ok ["ORF2:A5G", "ORF2:B100C", "ORF10:A12T"] ∧
    pyStrLt "ORF10:A12T" "ORF2:A5G" = true := by
  refine ⟨?_, by decide, by decide⟩
  intro names hwfl
  have hkeys : ∀ x ∈ names, ∃ k, columnKey x = .ok k := by
    intro x hx
    rcases hwfl x hx with ⟨orf, mtn, hsp, ho, hp⟩
    obtain ⟨o, ho2⟩ := Option.isSome_iff_exists.mp ho
    obtain ⟨p, hp2⟩ := Option.isSome_iff_exists.mp hp
    exact ⟨_, columnKey_eq hsp ho2 hp2⟩
  rcases pySorted_ok colKeyLE_trans colKeyLE_total names hkeys with
    ⟨out, hout, hperm, hpw⟩
  refine ⟨out, hout, hperm, ?_⟩
  refine List.Pairwise.imp_of_mem ?_ hpw
  intro a b ha hb hle
  rcases hwfl a (hperm.mem_iff.mp ha) with ⟨orfa, mtna, hsa, hoa, hpa⟩
  rcases hwfl b (hperm.mem_iff.mp hb) with ⟨orfb, mtnb, hsb, hob, hpb⟩
  obtain ⟨oa, hoa2⟩ := Option.isSome_iff_exists.mp hoa
  obtain ⟨pa, hpa2⟩ := Option.isSome_iff_exists.mp hpa
  obtain ⟨ob, hob2⟩ := Option.isSome_iff_exists.mp hob
  obtain ⟨pb, hpb2⟩ := Option.isSome_iff_exists.mp hpb
  have hka := columnKey_eq hsa hoa2 hpa2
  have hkb := columnKey_eq hsb hob2 hpb2
  exact (columnKey_le_iff_spec hsa hsb hoa2 hpa2 hob2 hpb2).mp
    (hle _ _ hka hkb)

/-- Witness for C2: the three-name example satisfies the hypotheses, and
the theorem applies to it. -/
theorem C2_column_order_witness :
    (∀ x ∈ (["ORF10:A12T", "ORF2:B100C", "ORF2:A5G"] : List String),
      wfColName x) ∧
    (∃ out, pySorted columnKey colKeyLE
        ["ORF10:A12T", "ORF2:B100C", "ORF2:A5G"] = .ok out ∧
      out.Perm ["ORF10:A12T", "ORF2:B100C", "ORF2:A5G"] ∧
      out.Pairwise specColLE) := by
  have hw : ∀ x ∈ (["ORF10:A12T", "ORF2:B100C", "ORF2:A5G"] : List String),
      wfColName x := by
    intro x hx
    simp only [List.mem_cons, List.not_mem_nil, or_false] at hx
    rcases hx with rfl | rfl | rfl
    · exact ⟨"ORF10", "A12T", by decide, by decide, by decide⟩
    · exact ⟨"ORF2", "B100C", by decide, by decide, by decide⟩
    · exact ⟨"ORF2", "A5G", by decide, by decide, by decide⟩
  exact ⟨hw, C2_column_order.1 _ hw⟩

/-! ### Claims C3 and C10 -/

theorem sameSet_refl (a : List String) : sameSet a a = true := by
  simp only [sameSet, Bool.and_eq_true, List.all_eq_true]
  constructor <;>
  · intro x hx
    simpa using hx

/-- C3: on a non-empty table, the consistency checker succeeds and returns
the first mutation's approach-name set exactly when every mutation's
approach-name set equals that of the first mutation in iteration order; on
a mismatch it fails with the assertion error, which `makePlot` propagates
before drawing anything. -/
theorem C3_consistency (n0 : String) (inner0 : Inner) (rest : Table) :
    (∀ s, checkApproachNames ((n0, inner0) :: rest) = .ok s ↔
      (s = innerKeys inner0 ∧
        ∀ e ∈ ((n0, inner0) :: rest),
          sameSet (innerKeys e.2) (innerKeys inner0) = true)) ∧
    (∀ e2, checkApproachNames ((n0, inner0) :: rest) = .error e2 →
      makePlot ((n0, inner0) :: rest) = .error e2) := by
  constructor
  · intro s
    rw [checkApproachNames_cons]
    by_cases hall : rest.all
        (fun e2 => sameSet (innerKeys e2.2) (innerKeys inner0))
    · rw [if_pos hall]
      constructor
      · intro h
        cases h
        refine ⟨rfl, ?_⟩
        intro e he
        rcases List.mem_cons.mp he with rfl | he2
        · exact sameSet_refl _
        · exact (List.all_eq_true.mp hall) e he2
      · rintro ⟨rfl, _⟩
        rfl
    · rw [if_neg hall]
      constructor
      · intro h
        cases h
      · rintro ⟨rfl, hforall⟩
        exfalso
        apply hall
        rw [List.all_eq_true]
        intro e he
        exact hforall e (List.mem_cons_of_mem _ he)
  · intro e2 h
    simp only [makePlot, h]

/-- Witness for C3: the spec's schema-mismatch scenario — "ORF1:Y2435K"
has approaches {A, B} but "ORF2:C100D" only {A} — fails the check, and
`makePlot` propagates the failure. -/
theorem C3_consistency_witness :
    checkApproachNames
        [("ORF1:Y2435K", [("A", none), ("B", none)]),
          ("ORF2:C100D", [("A", none)])] = .error .assertionError ∧
    makePlot
        [("ORF1:Y2435K", [("A", none), ("B", none)]),
          ("ORF2:C100D", [("A", none)])] = .error .assertionError := by
  have hc : checkApproachNames
      [("ORF1:Y2435K", [("A", none), ("B", none)]),
        ("ORF2:C100D", [("A", none)])] = .error .assertionError := by decide
  exact ⟨hc, (C3_consistency "ORF1:Y2435K" [("A", none), ("B", none)]
    [("ORF2:C100D", [("A", none)])]).2 _ hc⟩

/-- C10: the consistency checker is defined only on non-empty tables — on
the empty table the `approaches` variable is never bound and the final
`return` raises `UnboundLocalError`, so `makePlot` (and the whole pipeline
on a header-only CSV) aborts without producing any panel. -/
theorem C10_empty_table :
    checkApproachNames ([] : Table) = .error .unboundLocalError ∧
    makePlot ([] : Table) = .error .unboundLocalError ∧
    getData [csvHeader] = .ok [] ∧
    runPipeline [csvHeader] = .error .unboundLocalError := by
  exact ⟨by decide, by decide, by decide, by decide⟩

/-! ### Substring lemmas for error messages -/

theorem startsWithCh_append (needle post : List Char) :
    startsWithCh needle (needle ++ post) = true := by
  induction needle with
  | nil => rfl
  | cons c cs ih => simp [startsWithCh, ih]

theorem containsSub_of_startsWith {needle hay : List Char}
    (h : startsWithCh needle hay = true) : containsSub needle hay = true := by
  cases hay <;> simp [containsSub, h]

theorem containsSub_cons {needle t : List Char} (c : Char)
    (h : containsSub needle t = true) : containsSub needle (c :: t) = true := by
  simp [containsSub, h]

theorem containsSub_mid (pre needle post : List Char) :
    containsSub needle (pre ++ needle ++ post) = true := by
  induction pre with
  | nil =>
    exact containsSub_of_startsWith (startsWithCh_append needle post)
  | cons c cs ih => exact containsSub_cons c ih

theorem strContains_mid (x a y : String) :
    strContains (x ++ a ++ y) a = true := by
  simp only [strContains, String.data_append]
  exact containsSub_mid x.data a.data y.data

/-- The duplicate-pair message mentions both the approach name and the
mutation name. -/
theorem dupMessage_names (a n : String) :
    strContains (dupMessage a n) a = true ∧
      strContains (dupMessage a n) n = true := by
  constructor
  · have he : dupMessage a n = ("Approach name " ++ squote) ++ a ++
        (squote ++ " found twice for " ++ pyRepr n ++ ".") := by
      simp [dupMessage, pyRepr, String.append_assoc]
    rw [he]
    exact strContains_mid _ a _
  · have he : dupMessage a n = ("Approach name " ++ pyRepr a ++
        " found twice for " ++ squote) ++ n ++ (squote ++ ".") := by
      simp [dupMessage, pyRepr, String.append_assoc]
    rw [he]
    exact strContains_mid _ n _

/-! ### Claim C4 -/

/-- C4: for every well-shaped CSV in which some (mutation, approach) pair
occurs in two data rows, loading aborts with the duplicate-pair failure:
`sys.exit(1)` — a non-zero exit status — after printing a message that
names the approach and the mutation of an actually-duplicated pair, and the
pipeline produces no output. -/
theorem C4_duplicate_pair (rows : List (List String))
    (hgood : ∀ row ∈ rows, goodRow row = true) (p0 : String × String)
    (hdup : 2 ≤ (rows.map pairOf).count p0) :
    ∃ a n, 2 ≤ ((rows.map pairOf).count (n, a)) ∧
      getData (csvHeader :: rows) = .error (.systemExit 1 (dupMessage a n)) ∧
      runPipeline (csvHeader :: rows) =
        .error (.systemExit 1 (dupMessage a n)) ∧
      strContains (dupMessage a n) a = true ∧
      strContains (dupMessage a n) n = true := by
  have hload : getData (csvHeader :: rows) = loadRows [] rows := by
    simp [getData]
  cases hres : loadRows [] rows with
  | ok t2 =>
    exfalso
    rcases loadRows_ok_facts hres (by simp) with ⟨_, hC, hD⟩
    have hnodup : (tablePairs t2).Nodup := hD (by simp [tablePairs])
    rw [pair_nodup_iff_count] at hnodup
    have h1 := hnodup p0
    have h2 := hC p0
    have h3 : tablePairs ([] : Table) = [] := rfl
    rw [h3, List.count_nil] at h2
    omega
  | error e =>
    rcases loadRows_error_dup hgood (by simp) hres with ⟨a, n, he, hcount⟩
    subst he
    have hc2 : 2 ≤ ((rows.map pairOf).count (n, a)) := by
      simpa [tablePairs] using hcount
    refine ⟨a, n, hc2, ?_, ?_, (dupMessage_names a n).1,
      (dupMessage_names a n).2⟩
    · rw [hload, hres]
    · simp only [runPipeline, hload, hres]

/-- Witness for C4: the spec's duplicate-key scenario — two rows with
mutation "ORF1:Y2435K" and approach "Serum native". -/
theorem C4_duplicate_pair_witness :
    (∀ row ∈ [["ORF1:Y2435K", "Serum native", "10", ""],
        ["ORF1:Y2435K", "Serum native", "20", ""]], goodRow row = true) ∧
    (∃ a n, 2 ≤ (([["ORF1:Y2435K", "Serum native", "10", ""],
          ["ORF1:Y2435K", "Serum native", "20", ""]].map pairOf).count
          (n, a)) ∧
      getData (csvHeader :: [["ORF1:Y2435K", "Serum native", "10", ""],
          ["ORF1:Y2435K", "Serum native", "20", ""]]) =
        .error (.systemExit 1 (dupMessage a n)) ∧
      runPipeline (csvHeader :: [["ORF1:Y2435K", "Serum native", "10", ""],
          ["ORF1:Y2435K", "Serum native", "20", ""]]) =
        .error (.systemExit 1 (dupMessage a n)) ∧
      strContains (dupMessage a n) a = true ∧
      strContains (dupMessage a n) n = true) := by
  refine ⟨by decide, C4_duplicate_pair _ (by decide)
    ("ORF1:Y2435K", "Serum native") (by decide)⟩

/-! ### Claim C5 -/

/-- C5: round-trip through the loader — when loading succeeds, every data
row's (mutation, approach) pair is found in the table with exactly the
row's value: `None` for an empty percent field (never the number zero),
and the parsed number otherwise. -/
theorem C5_roundtrip (rows : List (List String)) (t : Table)
    (hok : getData (csvHeader :: rows) = .ok t) (n a p u : String)
    (hrow : [n, a, p, u] ∈ rows) :
    ∃ v, lookup2 t n a = .ok v ∧
      (p = "" → v = none ∧ v ≠ some 0) ∧
      (∀ q, pyFloat p = some q → p ≠ "" → v = some q) := by
  have hload : loadRows [] rows = .ok t := by simpa [getData] using hok
  rcases loadRows_binding hload hrow with ⟨v, hb, hemp, hq⟩
  refine ⟨v, lookup2_of_binding hb, ?_, hq⟩
  intro hp
  refine ⟨hemp hp, ?_⟩
  rw [hemp hp]
  simp

/-- Witness for C5: a row with an empty percent field loads as `None`, and
a row with percent "10" loads as the parsed number. -/
theorem C5_roundtrip_witness :
    (getData (csvHeader :: [["ORF1:Y2435K", "Serum cap", "", ""],
        ["ORF1:Y2435K", "Serum native", "10", ""]]) =
      .ok [("ORF1:Y2435K", [("Serum cap", none),
        ("Serum native", some 10)])]) ∧
    (∃ v, lookup2 [("ORF1:Y2435K", [("Serum cap", none),
          ("Serum native", some 10)])] "ORF1:Y2435K" "Serum cap" = .ok v ∧
      ("" = "" → v = none ∧ v ≠ some 0) ∧
      (∀ q, pyFloat "" = some q → "" ≠ "" → v = some q)) ∧
    (∃ v, lookup2 [("ORF1:Y2435K", [("Serum cap", none),
          ("Serum native", some 10)])] "ORF1:Y2435K" "Serum native" =
        .ok v ∧
      ("10" = "" → v = none ∧ v ≠ some 0) ∧
      (∀ q, pyFloat "10" = some q → "10" ≠ "" → v = some q)) := by
  have hok : getData (csvHeader :: [["ORF1:Y2435K", "Serum cap", "", ""],
      ["ORF1:Y2435K", "Serum native", "10", ""]]) =
    .ok [("ORF1:Y2435K", [("Serum cap", none),
      ("Serum native", some 10)])] := rfl
  exact ⟨hok,
    C5_roundtrip _ _ hok "ORF1:Y2435K" "Serum cap" "" "" (by decide),
    C5_roundtrip _ _ hok "ORF1:Y2435K" "Serum native" "10" "" (by decide)⟩

/-! ### Claim C9 (corrected) -/

/-- Counterexample to C9 as stated: a row with percent "150" loads
successfully and the value 150 — outside [0, 100] — appears as a non-null
percentage in the table. -/
theorem C9_counterexample :
    getData [csvHeader, ["ORF1:Y2435K", "Serum native", "150", ""]] =
      .ok [("ORF1:Y2435K", [("Serum native", some 150)])] ∧
    ¬((150 : ℚ) ≤ 100) := by
  exact ⟨rfl, by decide⟩

/-- C9 as amended: the loader records exactly the parsed value of a
non-empty percent field, with no range check, so out-of-range values are
stored unchanged. -/
theorem C9_amended (n a p u : String) (q : ℚ) (hp : p ≠ "")
    (hq : pyFloat p = some q) :
    getData [csvHeader, [n, a, p, u]] = .ok [(n, [(a, some q)])] := by
  have h0 : getData [csvHeader, [n, a, p, u]] = loadRows [] [[n, a, p, u]] := by
    simp [getData]
  rw [h0, loadRows_cons_good, if_neg (by simp [List.lookup]),
    if_neg hp, hq]
  rfl

/-- Witness for the amended C9: the out-of-range value 150 is stored
unchanged. -/
theorem C9_amended_witness :
    getData [csvHeader, ["M", "A", "150", ""]] =
      .ok [("M", [("A", some 150)])] :=
  C9_amended "M" "A" "150" "" 150 (by decide) rfl

/-! ### Claim C6 -/

theorem pySorted_perm {key : α → Except PyError κ} {le : κ → κ → Bool}
    {xs out : List α} (h : pySorted key le xs = .ok out) : out.Perm xs := by
  unfold pySorted at h
  cases hm : mapExcept (fun x => (key x).map (fun k => (k, x))) xs with
  | error e => rw [hm] at h; cases h
  | ok keyed =>
    rw [hm] at h
    cases h
    have hsnd : keyed.map Prod.snd = xs :=
      (keyed_facts (mapExcept_forall₂ hm)).2
    have hp := (sortBy_perm (fun p q : κ × α => le p.1 q.1) keyed).map Prod.snd
    rw [hsnd] at hp
    exact hp

theorem pySorted_length {key : α → Except PyError κ} {le : κ → κ → Bool}
    {xs out : List α} (h : pySorted key le xs = .ok out) :
    out.length = xs.length :=
  (pySorted_perm h).length_eq

theorem checkApproachNames_ok_nodup {data : Table} {s : List String}
    (h : checkApproachNames data = .ok s) : s.Nodup := by
  cases data with
  | nil => simp [checkApproachNames, checkLoop] at h
  | cons e t =>
    rw [checkApproachNames_cons] at h
    by_cases hall : t.all (fun e2 => sameSet (innerKeys e2.2) (innerKeys e.2))
    · rw [if_pos hall] at h
      cases h
      exact List.nodup_dedup _
    · rw [if_neg hall] at h
      cases h

theorem count_nodup_strings {l : List String} (h : l.Nodup) (a : String) :
    l.count a = if a ∈ l then 1 else 0 := by
  by_cases hm : a ∈ l
  · rw [if_pos hm]
    exact List.count_eq_one_of_mem h hm
  · rw [if_neg hm]
    exact List.count_eq_zero.mpr hm

/-- Inversion of a successful `makePlot`: the check and both sorts
succeeded and the drawing loop produced the panels. -/
theorem makePlot_ok_inv {data : Table} {panels : List Panel}
    (hok : makePlot data = .ok panels) :
    ∃ s sortedApp sortedNames,
      checkApproachNames data = .ok s ∧
      pySorted rowKey rowKeyLE s = .ok sortedApp ∧
      pySorted columnKey colKeyLE (data.map Prod.fst) = .ok sortedNames ∧
      drawPanels
        (sortedApp.flatMap (fun a2 => sortedNames.map (fun n2 => (a2, n2))))
        (gridCoords s.length data.length) data = .ok panels := by
  cases hchk : checkApproachNames data with
  | error e =>
    have hm : makePlot data = .error e := by simp only [makePlot, hchk]
    rw [hm] at hok
    cases hok
  | ok s =>
    cases hsa : pySorted rowKey rowKeyLE s with
    | error e =>
      have hm : makePlot data = .error e := by
        simp only [makePlot, hchk, hsa]
      rw [hm] at hok
      cases hok
    | ok sortedApp =>
      cases hsn : pySorted columnKey colKeyLE (data.map Prod.fst) with
      | error e =>
        have hm : makePlot data = .error e := by
          simp only [makePlot, hchk, hsa, hsn]
        rw [hm] at hok
        cases hok
      | ok sortedNames =>
        have hm : makePlot data = drawPanels
            (sortedApp.flatMap
              (fun a2 => sortedNames.map (fun n2 => (a2, n2))))
            (gridCoords s.length data.length) data := by
          simp only [makePlot, hchk, hsa, hsn]
        rw [hm] at hok
        exact ⟨s, sortedApp, sortedNames, rfl, hsa, rfl, hok⟩

/-- C6: a successful rendering of a consistent table with `r` distinct
approach names and `c` distinct mutation names draws exactly `r × c`
panels; the panel for the approach of row-key rank `i` and the mutation of
column-key rank `j` sits at list position `i * c + j` — the row-major
consumption order of the coordinate iterator — and is drawn at grid
coordinate `(i, j)`; and each (approach, mutation) pair gets exactly one
panel. -/
theorem C6_grid (data : Table) (panels : List Panel)
    (hok : makePlot data = .ok panels) (hkeys : (data.map Prod.fst).Nodup) :
    ∃ s sortedApp sortedNames,
      checkApproachNames data = .ok s ∧
      pySorted rowKey rowKeyLE s = .ok sortedApp ∧
      pySorted columnKey colKeyLE (data.map Prod.fst) = .ok sortedNames ∧
      sortedApp.length = s.length ∧
      sortedNames.length = data.length ∧
      panels.length = s.length * data.length ∧
      (∀ i j (hi : i < sortedApp.length) (hj : j < sortedNames.length)
        (hidx : i * data.length + j < panels.length),
        ∃ v, lookup2 data (sortedNames.get ⟨j, hj⟩)
            (sortedApp.get ⟨i, hi⟩) = .ok v ∧
          panels.get ⟨i * data.length + j, hidx⟩ =
            plotPie v i j (sortedApp.get ⟨i, hi⟩)
              (sortedNames.get ⟨j, hj⟩)) ∧
      (∀ a2 n2,
        ((panels.map (fun pl => (pl.approach, pl.name))).count (a2, n2)) =
          if a2 ∈ s ∧ n2 ∈ data.map Prod.fst then 1 else 0) := by
  rcases makePlot_ok_inv hok with
    ⟨s, sortedApp, sortedNames, hchk, hsa, hsn, hok⟩
  have hlenA : sortedApp.length = s.length := pySorted_length hsa
  have hlenN : sortedNames.length = data.length := by
    rw [pySorted_length hsn, List.length_map]
  rcases drawPanels_ok hok with ⟨hplen, hple, hget, hmap⟩
  have hpairslen : (sortedApp.flatMap
      (fun a2 => sortedNames.map (fun n2 => (a2, n2)))).length =
      s.length * data.length := by
    rw [length_flatMap_product, hlenA, hlenN]
  refine ⟨s, sortedApp, sortedNames, hchk, hsa, hsn, hlenA, hlenN, ?_, ?_, ?_⟩
  · rw [hplen, hpairslen]
  · intro i j hi hj hidx
    have hbound : i * data.length + j < s.length * data.length := by
      have h1 : i * data.length + j < (i + 1) * data.length := by
        rw [Nat.add_mul, Nat.one_mul]
        omega
      have h2 : (i + 1) * data.length ≤ s.length * data.length :=
        Nat.mul_le_mul_right _ (by omega)
      omega
    have hk1 : i * data.length + j < (sortedApp.flatMap
        (fun a2 => sortedNames.map (fun n2 => (a2, n2)))).length := by
      rw [hpairslen]
      exact hbound
    have hk2 : i * data.length + j <
        (gridCoords s.length data.length).length := by
      rw [gridCoords_length]
      exact hbound
    have hk3 : i * data.length + j < panels.length := hidx
    rcases hget (i * data.length + j) hk1 hk2 hk3 with ⟨v, hv, hpanel⟩
    have hpget : (sortedApp.flatMap
        (fun a2 => sortedNames.map (fun n2 => (a2, n2))))[
          i * data.length + j] =
        (sortedApp[i], sortedNames[j]) := by
      have hpget0 := getElem_flatMap_product sortedApp sortedNames
        (fun a2 n2 => (a2, n2)) i j hi hj (by rw [hlenN]; exact hk1)
      have hidxeq : i * sortedNames.length + j = i * data.length + j := by
        rw [hlenN]
      simp only [hidxeq] at hpget0
      exact hpget0
    have hcget : (gridCoords s.length data.length)[i * data.length + j] =
        (i, j) :=
      gridCoords_getElem s.length data.length i j (hlenA ▸ hi) (hlenN ▸ hj)
        hk2
    rw [hpget] at hv hpanel
    rw [hcget] at hpanel
    simp only [List.get_eq_getElem]
    exact ⟨v, hv, hpanel⟩
  · intro a2 n2
    rw [hmap, count_flatMap_pair]
    rw [(pySorted_perm hsa).count_eq, (pySorted_perm hsn).count_eq]
    rw [count_nodup_strings (checkApproachNames_ok_nodup hchk) a2,
      count_nodup_strings hkeys n2]
    by_cases h1 : a2 ∈ s <;> by_cases h2 : n2 ∈ data.map Prod.fst <;>
      simp [h1, h2]

/-- Witness for C6: a concrete consistent 2×2 table renders into four
panels whose count and sort structure the theorem describes. -/
theorem C6_grid_witness :
    makePlot
        [("ORF1:Y2435K", [("Serum native", some 10), ("Serum cap", none)]),
          ("ORF2:C100D", [("Serum native", some 20), ("Serum cap", some 30)])]
      = .ok
        [⟨0, 0, "Serum native", "ORF1:Y2435K", some "ORF1:Y2435K",
            some "Serum native", .pie [10, 100 - 10] none⟩,
          ⟨0, 1, "Serum native", "ORF2:C100D", some "ORF2:C100D", none,
            .pie [20, 100 - 20] none⟩,
          ⟨1, 0, "Serum cap", "ORF1:Y2435K", none, some "Serum cap",
            .axisOff⟩,
          ⟨1, 1, "Serum cap", "ORF2:C100D", none, none,
            .pie [30, 100 - 30] none⟩] ∧
    (([("ORF1:Y2435K",
          [("Serum native", some (10 : ℚ)), ("Serum cap", none)]),
        ("ORF2:C100D", [("Serum native", some 20), ("Serum cap", some 30)])] :
        Table).map Prod.fst).Nodup ∧
    (∃ s sortedApp sortedNames,
      checkApproachNames
          [("ORF1:Y2435K", [("Serum native", some 10), ("Serum cap", none)]),
            ("ORF2:C100D",
              [("Serum native", some 20), ("Serum cap", some 30)])] =
        .ok s ∧
      pySorted rowKey rowKeyLE s = .ok sortedApp ∧
      pySorted columnKey colKeyLE ["ORF1:Y2435K", "ORF2:C100D"] =
        .ok sortedNames ∧
      (4 : Nat) = s.length * 2) := by
  have hok : makePlot
      [("ORF1:Y2435K", [("Serum native", some 10), ("Serum cap", none)]),
        ("ORF2:C100D", [("Serum native", some 20), ("Serum cap", some 30)])]
    = .ok
      [⟨0, 0, "Serum native", "ORF1:Y2435K", some "ORF1:Y2435K",
          some "Serum native", .pie [10, 100 - 10] none⟩,
        ⟨0, 1, "Serum native", "ORF2:C100D", some "ORF2:C100D", none,
          .pie [20, 100 - 20] none⟩,
        ⟨1, 0, "Serum cap", "ORF1:Y2435K", none, some "Serum cap",
          .axisOff⟩,
        ⟨1, 1, "Serum cap", "ORF2:C100D", none, none,
          .pie [30, 100 - 30] none⟩] := rfl
  refine ⟨hok, by decide, ?_⟩
  rcases C6_grid _ _ hok (by decide) with
    ⟨s, sortedApp, sortedNames, h1, h2, h3, _, _, h6, _, _⟩
  exact ⟨s, sortedApp, sortedNames, h1, h2, h3, h6⟩

/-! ### Claim C7 -/

/-- C7: in a successful rendering, a panel whose (approach, mutation) value
is null is blank — axis turned off, no pie drawn — and a panel with a
non-null percent is a two-slice pie `[percent, 100 - percent]` with no
numeric slice labels (`autopct` stays `None`); moreover panels depend only
on their own pair's value: rendering a second table with the same keys and
the same check result produces, at every position whose pair's value is
unchanged, the identical panel. -/
theorem C7_panels (data : Table) (panels : List Panel)
    (hok : makePlot data = .ok panels) :
    (∀ pl ∈ panels,
      (lookup2 data pl.name pl.approach = .ok none → pl.body = .axisOff) ∧
      (∀ q : ℚ, lookup2 data pl.name pl.approach = .ok (some q) →
        pl.body = .pie [q, 100 - q] none)) ∧
    (∀ data2 panels2, makePlot data2 = .ok panels2 →
      data2.map Prod.fst = data.map Prod.fst →
      checkApproachNames data2 = checkApproachNames data →
      panels2.length = panels.length ∧
      (∀ k (hk : k < panels.length) (hk2 : k < panels2.length),
        (panels.get ⟨k, hk⟩).approach = (panels2.get ⟨k, hk2⟩).approach ∧
        (panels.get ⟨k, hk⟩).name = (panels2.get ⟨k, hk2⟩).name ∧
        (lookup2 data (panels.get ⟨k, hk⟩).name
            (panels.get ⟨k, hk⟩).approach =
          lookup2 data2 (panels.get ⟨k, hk⟩).name
            (panels.get ⟨k, hk⟩).approach →
          panels.get ⟨k, hk⟩ = panels2.get ⟨k, hk2⟩))) := by
  rcases makePlot_ok_inv hok with ⟨s, sa, sn, hchk, hsa, hsn, hdraw⟩
  rcases drawPanels_ok hdraw with ⟨hplen, hple, hget, hmap⟩
  constructor
  · intro pl hpl
    obtain ⟨k, hk, hkpl⟩ := List.mem_iff_getElem.mp hpl
    rcases hget k (by omega) (by omega) hk with ⟨v, hv, hpanel⟩
    rw [hpanel] at hkpl
    subst hkpl
    constructor
    · intro hnull
      simp only [plotPie] at hnull
      rw [hv] at hnull
      cases hnull
      rfl
    · intro q hq
      simp only [plotPie] at hq
      rw [hv] at hq
      cases hq
      rfl
  · intro data2 panels2 hok2 hmapfst hchk2
    rcases makePlot_ok_inv hok2 with ⟨s2, sa2, sn2, hchkB, hsaB, hsnB, hdrawB⟩
    have hs : s2 = s := by
      rw [hchkB, hchk] at hchk2
      cases hchk2
      rfl
    subst hs
    have hsaE : sa2 = sa := by
      have := hsaB.symm.trans hsa
      cases this
      rfl
    subst hsaE
    have hsnE : sn2 = sn := by
      rw [hmapfst] at hsnB
      have := hsnB.symm.trans hsn
      cases this
      rfl
    subst hsnE
    have hlenD : data2.length = data.length := by
      have := congrArg List.length hmapfst
      simpa using this
    rw [hlenD] at hdrawB
    rcases drawPanels_ok hdrawB with ⟨hplenB, hpleB, hgetB, hmapB⟩
    have hlenp : panels2.length = panels.length := by rw [hplenB, hplen]
    refine ⟨hlenp, ?_⟩
    intro k hk hk2
    rcases hget k (by omega) (by omega) hk with ⟨v, hv, hpanel⟩
    rcases hgetB k (by omega) (by omega) hk2 with ⟨v2, hv2, hpanel2⟩
    simp only [List.get_eq_getElem]
    rw [hpanel, hpanel2]
    refine ⟨rfl, rfl, ?_⟩
    intro hagree
    simp only [plotPie] at hagree
    rw [hv, hv2] at hagree
    cases hagree
    rfl

/-- Witness for C7: the spec's missing-value scenario — mutation
"ORF1:Y2435K" has a value for "Serum native" and an empty percent for
"Serum cap" — renders the "Serum cap" panel blank and the other as a
two-slice pie. -/
theorem C7_panels_witness :
    makePlot [("ORF1:Y2435K", [("Serum native", some 10), ("Serum cap", none)])]
      = .ok
        [⟨0, 0, "Serum native", "ORF1:Y2435K", some "ORF1:Y2435K",
            some "Serum native", .pie [10, 100 - 10] none⟩,
          ⟨1, 0, "Serum cap", "ORF1:Y2435K", none, some "Serum cap",
            .axisOff⟩] ∧
    (∀ pl ∈ ([⟨0, 0, "Serum native", "ORF1:Y2435K", some "ORF1:Y2435K",
          some "Serum native", .pie [10, 100 - 10] none⟩,
        ⟨1, 0, "Serum cap", "ORF1:Y2435K", none, some "Serum cap",
          .axisOff⟩] : List Panel),
      (lookup2 [("ORF1:Y2435K",
          [("Serum native", some 10), ("Serum cap", none)])]
          pl.name pl.approach = .ok none → pl.body = .axisOff) ∧
      (∀ q : ℚ, lookup2 [("ORF1:Y2435K",
          [("Serum native", some 10), ("Serum cap", none)])]
          pl.name pl.approach = .ok (some q) →
        pl.body = .pie [q, 100 - q] none)) := by
  have hok : makePlot
      [("ORF1:Y2435K", [("Serum native", some 10), ("Serum cap", none)])]
    = .ok
      [⟨0, 0, "Serum native", "ORF1:Y2435K", some "ORF1:Y2435K",
          some "Serum native", .pie [10, 100 - 10] none⟩,
        ⟨1, 0, "Serum cap", "ORF1:Y2435K", none, some "Serum cap",
          .axisOff⟩] := rfl
  exact ⟨hok, (C7_panels _ _ hok).1⟩

/-! ### Claim C8 (corrected) -/

/-- Counterexample to C8 as stated: the malformed name "ORFX:ABC" (no
digits in either token) makes the column key fail, but the raised
exception is CPython's bare `AttributeError` whose message does not
mention — and so does not identify — the offending name. -/
theorem C8_counterexample :
    columnKey "ORFX:ABC" = .error (.attributeError noneGroupMsg) ∧
    strContains (pyErrMsg (.attributeError noneGroupMsg)) "ORFX:ABC" =
      false := by
  exact ⟨by decide, by decide⟩

/-- C8 as amended: for every mutation name without a digit run in both
colon-separated tokens, or without exactly two such tokens, the column key
fails — with an `AttributeError` or unpacking `ValueError` whose message is
a fixed runtime string that does not name the offending input. -/
theorem C8_amended (name : String)
    (hbad : ∀ orf mtn, pySplitChar name ':' = [orf, mtn] →
      ¬((digitsSearch orf).isSome ∧ (digitsSearch mtn).isSome)) :
    ∃ e, columnKey name = .error e ∧
      (e = .attributeError noneGroupMsg ∨
        e = .valueError (unpackMsg 2 (pySplitChar name ':').length)) := by
  cases hsp : pySplitChar name ':' with
  | nil =>
    have hck : columnKey name =
        .error (.valueError (unpackMsg 2 (List.length ([] : List String)))) := by
      simp only [columnKey, hsp]
    exact ⟨_, hck, Or.inr rfl⟩
  | cons orf rest =>
    cases rest with
    | nil =>
      have hck : columnKey name =
          .error (.valueError (unpackMsg 2 [orf].length)) := by
        simp only [columnKey, hsp]
      exact ⟨_, hck, Or.inr rfl⟩
    | cons mtn rest2 =>
      cases rest2 with
      | cons r3 rest3 =>
        have hck : columnKey name = .error (.valueError
            (unpackMsg 2 (orf :: mtn :: r3 :: rest3).length)) := by
          simp only [columnKey, hsp]
        exact ⟨_, hck, Or.inr rfl⟩
      | nil =>
        have hb := hbad orf mtn hsp
        cases hdo : digitsSearch orf with
        | none =>
          have hck : columnKey name = .error (.attributeError noneGroupMsg) := by
            simp only [columnKey, hsp, hdo]
          exact ⟨_, hck, Or.inl rfl⟩
        | some o =>
          cases hdm : digitsSearch mtn with
          | none =>
            have hck : columnKey name =
                .error (.attributeError noneGroupMsg) := by
              simp only [columnKey, hsp, hdo, hdm]
            exact ⟨_, hck, Or.inl rfl⟩
          | some p =>
            exact absurd ⟨by rw [hdo]; rfl, by rw [hdm]; rfl⟩ hb

/-- Witness for the amended C8: the malformed name "ORFX:ABC" fails. -/
theorem C8_amended_witness :
    ∃ e, columnKey "ORFX:ABC" = .error e ∧
      (e = .attributeError noneGroupMsg ∨
        e = .valueError (unpackMsg 2 (pySplitChar "ORFX:ABC" ':').length)) := by
  refine C8_amended "ORFX:ABC" ?_
  intro orf mtn h
  rw [show pySplitChar "ORFX:ABC" ':' = ["ORFX", "ABC"] from by decide] at h
  injection h with h1 h2
  injection h2 with h2 h3
  subst h1
  subst h2
  decide

end MutPlot
